import Mathlib

/-!
A verification development for the poetry-annotation pipeline: a shallow
embedding of the repository's fetch/parse/persist code (scraper.py,
storage.py, utils.py, app.py) together with theorems settling the spec's
claims about it.

Python values read from JSON lines are modelled by the `Json` type (arrays
and objects are cons-encoded so that decidable equality is derivable);
Python exceptions that the code can raise are modelled by `PyExn`, and
fallible code returns `Except PyExn`.  Python strings are modelled as
`String` / `List Char` with explicit embeddings of the string methods the
source uses (strip, rstrip, lower, capitalize, replace, split).
-/

/-- Exceptions the embedded code can raise and not catch. -/
inductive PyExn where
  | attributeError
  | typeError
  | keyError (k : String)
deriving DecidableEq, Repr

/-- A JSON value as produced by json.loads.  Arrays and objects are
cons-encoded (arrNil/arrCons, objNil/objCons) instead of carrying nested
lists, so that DecidableEq can be derived. -/
inductive Json where
  | null
  | bool (b : Bool)
  | num (n : Int)
  | str (s : String)
  | arrNil
  | arrCons (hd tl : Json)
  | objNil
  | objCons (k : String) (v : Json) (tl : Json)
deriving DecidableEq, Repr

/-- Build a cons-encoded JSON array from a list. -/
def Json.arrOf (l : List Json) : Json := l.foldr Json.arrCons Json.arrNil

/-- Build a cons-encoded JSON object from an association list. -/
def Json.objOf (l : List (String × Json)) : Json :=
  l.foldr (fun kv t => Json.objCons kv.1 kv.2 t) Json.objNil

/-- First binding of a key in an object chain (none on non-objects). -/
def Json.lookupKey : Json → String → Option Json
  | Json.objCons k v tl, key => if k = key then some v else tl.lookupKey key
  | _, _ => none

/-- Whether the value is a Python dict. -/
def Json.isObjB : Json → Bool
  | Json.objNil => true
  | Json.objCons _ _ _ => true
  | _ => false

/-- Elements of a JSON array chain. -/
def Json.elemsOf : Json → List Json
  | Json.arrCons hd tl => hd :: tl.elemsOf
  | _ => []

/-- Keys of a JSON object chain, in order. -/
def Json.keysOf : Json → List String
  | Json.objCons k _ tl => k :: tl.keysOf
  | _ => []

/-- Python truthiness of a JSON value. -/
def Json.truthy : Json → Bool
  | Json.null => false
  | Json.bool b => b
  | Json.num n => n ≠ 0
  | Json.str s => s ≠ ""
  | Json.arrNil => false
  | Json.arrCons _ _ => true
  | Json.objNil => false
  | Json.objCons _ _ _ => true

/-- Python dict.get(k) with default None: raises AttributeError on a
non-dict receiver. -/
def pyGet (j : Json) (k : String) : Except PyExn Json :=
  match j with
  | Json.objNil => Except.ok Json.null
  | Json.objCons _ _ _ => Except.ok ((j.lookupKey k).getD Json.null)
  | _ => Except.error PyExn.attributeError

/-- Python dict.get(k, d): raises AttributeError on a non-dict receiver. -/
def pyGetD (j : Json) (k : String) (d : Json) : Except PyExn Json :=
  match j with
  | Json.objNil => Except.ok d
  | Json.objCons _ _ _ => Except.ok ((j.lookupKey k).getD d)
  | _ => Except.error PyExn.attributeError

/-- Python subscript j[k]: KeyError when the key is missing, TypeError on
a non-dict receiver. -/
def pyIndex (j : Json) (k : String) : Except PyExn Json :=
  match j with
  | Json.objNil => Except.error (PyExn.keyError k)
  | Json.objCons _ _ _ =>
    match j.lookupKey k with
    | some v => Except.ok v
    | none => Except.error (PyExn.keyError k)
  | _ => Except.error PyExn.typeError

/-- Python `k in d` key membership. -/
def Json.hasKey (j : Json) (k : String) : Bool := (j.lookupKey k).isSome

/-- Python dict assignment d[k] = v: updates the first binding in place,
or appends a new binding at the end (insertion order). -/
def Json.setKey : Json → String → Json → Json
  | Json.objCons k v tl, key, nv =>
    if k = key then Json.objCons k nv tl else Json.objCons k v (tl.setKey key nv)
  | Json.objNil, key, nv => Json.objCons key nv Json.objNil
  | j, _, _ => j

/-- Characters Python str.strip / str.isspace treat as whitespace (the
ASCII whitespace set plus the no-break space that appears in the source's
long-line handling). -/
def isPySpace (c : Char) : Bool :=
  c = ' ' || c = '\t' || c = '\n' || c = '\r' || c = '\x0b' || c = '\x0c' || c = ' '

/-- Python str.lstrip() on a character list. -/
def pyLstripC (l : List Char) : List Char := l.dropWhile isPySpace

/-- Python str.rstrip() on a character list. -/
def pyRstripC (l : List Char) : List Char := (l.reverse.dropWhile isPySpace).reverse

/-- Python str.strip() on a character list. -/
def pyStripC (l : List Char) : List Char := pyLstripC (pyRstripC l)

/-- Python str.strip() on a string. -/
def pyStrip (s : String) : String := String.mk (pyStripC s.data)

/-- Python str.lower() on a character list (ASCII, as Lean's toLower). -/
def pyLowerC (l : List Char) : List Char := l.map Char.toLower

/-- Python str.lower() on a string. -/
def pyLower (s : String) : String := String.mk (pyLowerC s.data)

/-- Python str.capitalize(): first character upper-cased, rest lowered. -/
def pyCapitalizeC : List Char → List Char
  | [] => []
  | c :: r => c.toUpper :: pyLowerC r

/-- Python str.capitalize() on a string. -/
def pyCapitalize (s : String) : String := String.mk (pyCapitalizeC s.data)

/-- Fuelled non-overlapping left-to-right replacement, one fuel unit per
consumed character; fuel = length of the list suffices. -/
def replaceFuel (pat rep : List Char) : Nat → List Char → List Char
  | _, [] => []
  | 0, l => l
  | fuel+1, c :: rest =>
    if pat ≠ [] ∧ pat.isPrefixOf (c :: rest) then
      rep ++ replaceFuel pat rep fuel (rest.drop (pat.length - 1))
    else
      c :: replaceFuel pat rep fuel rest

/-- Python str.replace(pat, rep) on a character list (pat nonempty). -/
def replaceAllC (pat rep l : List Char) : List Char := replaceFuel pat rep l.length l

/-- Split a character list on the newline character, Python str.split style
(always at least one piece; pieces contain no newline). -/
def splitNlC : List Char → List (List Char)
  | [] => [[]]
  | c :: r =>
    if c = '\n' then [] :: splitNlC r
    else
      match splitNlC r with
      | [] => [[c]]
      | p :: ps => (c :: p) :: ps

/-- Join pieces with a separator, Python sep.join style. -/
def joinSepC (sep : List Char) : List (List Char) → List Char
  | [] => []
  | [p] => p
  | p :: q :: ps => p ++ sep ++ joinSepC sep (q :: ps)

/-- Truthiness of an optional Python string (None and the empty string are
falsy). -/
def optStrTruthy : Option String → Bool
  | none => false
  | some s => s ≠ ""

/-!
Record store (src/storage.py).

The append-only log file is modelled as a list of lines: a line is blank,
fails json.loads (malformed), or parses to a JSON value.  The CSV snapshot
is modelled as the column list and row grid that pandas.to_csv writes.
-/

/-- One line of the codings.jsonl log. -/
inductive LogLine where
  | blank
  | malformed
  | json (j : Json)
deriving DecidableEq, Repr

/-- The CodingRecord dataclass; field values are the JSON values stored in
the log line (the dataclass does not check their types). -/
structure CodingRecord where
  timestamp_iso : Json
  coder_id : Json
  url : Json
  poem_uuid : Json
  title : Json
  author : Json
  year : Json
  group : Json
  author_url : Json
  tags : Json
  moods : Json
  sentiment_x : Json
  sentiment_y : Json
  notes : Json
  is_complete : Json
  html_sha1 : Json
  extraction_ok : Json
  error : Json
  sentiment : Json
deriving DecidableEq, Repr

/-- Embeds _dict_to_coding_record: the three required keys are subscripted
(KeyError when missing, TypeError on a non-dict), the rest read with .get
and the source's defaults. -/
def dict_to_coding_record (j : Json) : Except PyExn CodingRecord := do
  let ts ← pyIndex j "timestamp_iso"
  let cid ← pyIndex j "coder_id"
  let url ← pyIndex j "url"
  let pu ← pyGet j "poem_uuid"
  let ti ← pyGet j "title"
  let au ← pyGet j "author"
  let ye ← pyGet j "year"
  let gr ← pyGet j "group"
  let auu ← pyGet j "author_url"
  let ta ← pyGetD j "tags" Json.arrNil
  let mo ← pyGetD j "moods" Json.arrNil
  let sx ← pyGetD j "sentiment_x" (Json.num 0)
  let sy ← pyGetD j "sentiment_y" (Json.num 0)
  let no ← pyGetD j "notes" (Json.str "")
  let ic ← pyGetD j "is_complete" (Json.bool false)
  let hs ← pyGetD j "html_sha1" (Json.str "")
  let eo ← pyGetD j "extraction_ok" (Json.bool true)
  let er ← pyGet j "error"
  let se ← pyGet j "sentiment"
  Except.ok ⟨ts, cid, url, pu, ti, au, ye, gr, auu, ta, mo, sx, sy, no, ic, hs, eo, er, se⟩

/-- The dict save_record serializes to the JSONL log, keys in source
order. -/
def record_to_dict (r : CodingRecord) : List (String × Json) :=
  [("timestamp_iso", r.timestamp_iso), ("coder_id", r.coder_id), ("url", r.url),
   ("poem_uuid", r.poem_uuid), ("title", r.title), ("author", r.author),
   ("year", r.year), ("group", r.group), ("author_url", r.author_url),
   ("tags", r.tags), ("moods", r.moods),
   ("sentiment_x", r.sentiment_x), ("sentiment_y", r.sentiment_y),
   ("notes", r.notes), ("is_complete", r.is_complete), ("html_sha1", r.html_sha1),
   ("extraction_ok", r.extraction_ok), ("error", r.error), ("sentiment", r.sentiment)]

/-- Embeds save_record's effect on the log: one json.dumps line appended
(save_record then calls update_csv_snapshot, modelled separately). -/
def save_record (log : List LogLine) (r : CodingRecord) : List LogLine :=
  log ++ [LogLine.json (Json.objOf (record_to_dict r))]

/-- The coder_id half of _read_jsonl_records' filtering: applied only when
coder_filter is truthy, compares the raw stored coder_id against the
stripped filter. -/
def filterCoder (coderF : Option String) (j : Json) : Except PyExn Bool :=
  if optStrTruthy coderF then
    match pyGet j "coder_id" with
    | Except.error e => Except.error e
    | Except.ok v =>
      if v ≠ Json.str (pyStrip (coderF.getD "")) then Except.ok false else Except.ok true
  else Except.ok true

/-- Embeds _read_jsonl_records' per-record filtering: the url filter is
applied only when url_filter is truthy, then the coder filter. -/
def filterStep (urlF coderF : Option String) (j : Json) : Except PyExn Bool :=
  if optStrTruthy urlF then
    match pyGet j "url" with
    | Except.error e => Except.error e
    | Except.ok v =>
      if v ≠ Json.str (urlF.getD "") then Except.ok false else filterCoder coderF j
  else filterCoder coderF j

/-- The latest_record_for / latest_record_for_coder scan: every yielded
record is converted with dict_to_coding_record and the last conversion is
kept. -/
def latestFold (urlF coderF : Option String) :
    Option CodingRecord → List LogLine → Except PyExn (Option CodingRecord)
  | acc, [] => Except.ok acc
  | acc, LogLine.blank :: rest => latestFold urlF coderF acc rest
  | acc, LogLine.malformed :: rest => latestFold urlF coderF acc rest
  | acc, LogLine.json j :: rest =>
    match filterStep urlF coderF j with
    | Except.error e => Except.error e
    | Except.ok false => latestFold urlF coderF acc rest
    | Except.ok true =>
      match dict_to_coding_record j with
      | Except.error e => Except.error e
      | Except.ok r => latestFold urlF coderF (some r) rest

/-- Embeds latest_record_for_coder. -/
def latest_record_for_coder (log : List LogLine) (url coder_id : String) :
    Except PyExn (Option CodingRecord) :=
  if pyStrip coder_id = "" then Except.ok none
  else latestFold (some url) (some coder_id) none log

/-- Embeds latest_record_for. -/
def latest_record_for (log : List LogLine) (url : String) :
    Except PyExn (Option CodingRecord) :=
  latestFold (some url) none none log

/-- Python set.add on a modelled set. -/
def addSet (s : List Json) (v : Json) : List Json := if v ∈ s then s else v :: s

/-- The single pass of get_coding_stats: state is (urls_seen,
completed_urls, total_records); records whose url is falsy are skipped
entirely. -/
def statsFold : (List Json × List Json × Nat) → List LogLine →
    Except PyExn (List Json × List Json × Nat)
  | st, [] => Except.ok st
  | st, LogLine.blank :: rest => statsFold st rest
  | st, LogLine.malformed :: rest => statsFold st rest
  | st, LogLine.json j :: rest =>
    match pyGet j "url" with
    | Except.error e => Except.error e
    | Except.ok url =>
      if url.truthy then
        match pyGetD j "is_complete" (Json.bool false) with
        | Except.error e => Except.error e
        | Except.ok ic =>
          statsFold (addSet st.1 url, (if ic.truthy then addSet st.2.1 url else st.2.1),
            st.2.2 + 1) rest
      else statsFold st rest

/-- Embeds get_coding_stats; the result triple is (total_records,
completed_records, unique_urls). -/
def get_coding_stats (log : List LogLine) : Except PyExn (Nat × Nat × Nat) :=
  match statsFold ([], [], 0) log with
  | Except.error e => Except.error e
  | Except.ok st => Except.ok (st.2.2, st.2.1.length, st.1.length)

/-- Elements of a joined sequence must all be strings ('; '.join raises
TypeError otherwise). -/
def strElems : List Json → Except PyExn (List String)
  | [] => Except.ok []
  | Json.str s :: r =>
    match strElems r with
    | Except.error e => Except.error e
    | Except.ok l => Except.ok (s :: l)
  | _ :: _ => Except.error PyExn.typeError

/-- Python sep.join(x): joins a list of strings, the characters of a
string, or the keys of a dict; TypeError otherwise. -/
def pyJoin (sep : String) (j : Json) : Except PyExn String :=
  match j with
  | Json.str s => Except.ok (String.mk (joinSepC sep.data (s.data.map (fun c => [c]))))
  | Json.arrNil => Except.ok ""
  | Json.arrCons _ _ =>
    match strElems j.elemsOf with
    | Except.error e => Except.error e
    | Except.ok l => Except.ok (String.mk (joinSepC sep.data (l.map String.data)))
  | Json.objNil => Except.ok ""
  | Json.objCons _ _ _ => Except.ok (String.mk (joinSepC sep.data (j.keysOf.map String.data)))
  | _ => Except.error PyExn.typeError

/-- The per-record step of update_csv_snapshot: joins tags and moods with
'; ' and stores them under tags_joined / moods_joined. -/
def augmentRecord (j : Json) : Except PyExn Json := do
  let t ← pyGetD j "tags" Json.arrNil
  let tj ← pyJoin "; " t
  let j1 := j.setKey "tags_joined" (Json.str tj)
  let m ← pyGetD j1 "moods" Json.arrNil
  let mj ← pyJoin "; " m
  Except.ok (j1.setKey "moods_joined" (Json.str mj))

/-- Reads and augments every parseable line of the log in order, skipping
blank and malformed lines. -/
def buildRecords : List LogLine → Except PyExn (List Json)
  | [] => Except.ok []
  | LogLine.blank :: rest => buildRecords rest
  | LogLine.malformed :: rest => buildRecords rest
  | LogLine.json j :: rest =>
    match augmentRecord j with
    | Except.error e => Except.error e
    | Except.ok a =>
      match buildRecords rest with
      | Except.error e => Except.error e
      | Except.ok l => Except.ok (a :: l)

/-- The fixed column order update_csv_snapshot asks pandas for. -/
def snapshotColumns : List String :=
  ["timestamp_iso", "coder_id", "url", "poem_uuid", "title", "author",
   "year", "group", "author_url",
   "tags_joined", "moods_joined", "sentiment", "sentiment_x", "sentiment_y", "notes",
   "is_complete", "html_sha1", "extraction_ok", "error"]

/-- Columns of the fixed list that occur in at least one record (the
source's available_columns). -/
def availableColumns (recs : List Json) : List String :=
  snapshotColumns.filter (fun c => recs.any (fun j => j.hasKey c))

/-- The CSV snapshot file content: its columns and one row per record
(missing cells are pandas NaN, modelled as none). -/
structure Snapshot where
  cols : List String
  rows : List (List (Option Json))
deriving DecidableEq, Repr

/-- The snapshot pandas writes for a record list. -/
def snapshotOf (recs : List Json) : Snapshot :=
  ⟨availableColumns recs, recs.map (fun j => (availableColumns recs).map (fun c => j.lookupKey c))⟩

/-- Embeds update_csv_snapshot: rebuilds the snapshot from the log, but
only writes when at least one record parsed (`if records:`); otherwise the
old snapshot file is left untouched. -/
def update_csv_snapshot (log : List LogLine) (old : Snapshot) : Except PyExn Snapshot :=
  match buildRecords log with
  | Except.error e => Except.error e
  | Except.ok recs => if recs.isEmpty then Except.ok old else Except.ok (snapshotOf recs)

/-- The set-building loop of get_last_completed_index_for_coder (app.py):
urls of records of the stripped coder whose is_complete is truthy,
including a missing url read as None. -/
def completedFold (coderTrim : String) :
    List Json → List LogLine → Except PyExn (List Json)
  | s, [] => Except.ok s
  | s, LogLine.blank :: rest => completedFold coderTrim s rest
  | s, LogLine.malformed :: rest => completedFold coderTrim s rest
  | s, LogLine.json j :: rest =>
    match pyGet j "coder_id" with
    | Except.error e => Except.error e
    | Except.ok cid =>
      if cid = Json.str coderTrim then
        match pyGetD j "is_complete" (Json.bool false) with
        | Except.error e => Except.error e
        | Except.ok ic =>
          if ic.truthy then
            match pyGet j "url" with
            | Except.error e => Except.error e
            | Except.ok u => completedFold coderTrim (addSet s u) rest
          else completedFold coderTrim s rest
      else completedFold coderTrim s rest

/-- Embeds get_last_completed_index_for_coder: the whole body sits in a
try/except Exception that turns any uncaught error into 0. -/
def get_last_completed_index_for_coder (log : List LogLine) (coder_id : String) : Nat :=
  if pyStrip coder_id = "" then 0
  else
    match completedFold (pyStrip coder_id) [] log with
    | Except.error _ => 0
    | Except.ok s => s.length

/-!
Normalization utilities (src/utils.py).
-/

/-- The fixed entity table of clean_text, in source order. -/
def entityTable : List (List Char × List Char) :=
  [(("&nbsp;").data, [' ']),
   (("&#8217;").data, ['\'']),
   (("&#8216;").data, ['\'']),
   (("&#8220;").data, ['\"']),
   (("&#8221;").data, ['\"']),
   (("&#8212;").data, ['—']),
   (("&#8211;").data, ['–']),
   (("&amp;").data, ['&']),
   (("&lt;").data, ['<']),
   (("&gt;").data, ['>']),
   (("&quot;").data, ['\"'])]

/-- Embeds clean_text: falsy input gives "", otherwise the entity
replacements are applied in table order and the result is stripped. -/
def clean_text (s : String) : String :=
  if s = "" then ""
  else String.mk (pyStripC (entityTable.foldl (fun acc pr => replaceAllC pr.1 pr.2 acc) s.data))

/-- Head-of-list whitespace test, for the 2+-whitespace split alternative. -/
def headIsPySpace : List Char → Bool
  | [] => false
  | c :: _ => isPySpace c

/-- Fuelled scan embedding re.split of the pattern used by normalize_tags:
a comma/semicolon plus any following whitespace, or a run of two or more
whitespace characters, each greedy and leftmost-first. -/
def splitTagsGo : Nat → List Char → List Char → List (List Char)
  | _, cur, [] => [cur.reverse]
  | 0, cur, l => [cur.reverse ++ l]
  | fuel+1, cur, c :: rest =>
    if c = ',' ∨ c = ';' then cur.reverse :: splitTagsGo fuel [] (rest.dropWhile isPySpace)
    else if isPySpace c ∧ headIsPySpace rest then
      cur.reverse :: splitTagsGo fuel [] (rest.dropWhile isPySpace)
    else splitTagsGo fuel (c :: cur) rest

/-- The delimiter split of normalize_tags. -/
def splitTagsC (l : List Char) : List (List Char) := splitTagsGo l.length [] l

/-- One iteration of normalize_tags' loop: strip and lower the candidate,
drop empty or case-insensitively already-emitted candidates, emit the first
case-insensitively matching base tag, else the capitalized candidate. -/
def normalizeStep (base_tags : List String) (normalized : List String) (piece : List Char) :
    List String :=
  let tag : String := String.mk (pyLowerC (pyStripC piece))
  if tag ≠ "" ∧ tag ∉ normalized.map pyLower then
    match base_tags.find? (fun bt => tag = pyLower bt) with
    | some bt => normalized ++ [bt]
    | none => normalized ++ [pyCapitalize tag]
  else normalized

/-- Embeds normalize_tags. -/
def normalize_tags (input_text : String) (base_tags : List String) : List String :=
  if input_text = "" then []
  else (splitTagsC (pyStrip input_text).data).foldl (normalizeStep base_tags) []

/-!
Fetcher (src/scraper.py, fetch_html).

A run is modelled by the cache state and the outcome each network attempt
would produce; the result records the returned value or raised error, the
sleeps performed (in seconds, in order), and any cache write.
-/

/-- Outcome of one network attempt: a response with a status and body, or
a requests.RequestException (network error / timeout). -/
inductive Attempt where
  | resp (status : Nat) (body : String)
  | exc
deriving DecidableEq, Repr

/-- Inputs of one fetch_html call. -/
structure FetchEnv where
  useCache : Bool
  cacheExists : Bool
  cacheRead : Option String
  attempts : List Attempt
deriving DecidableEq, Repr

/-- Result of fetch_html: a returned body or the exception raised. -/
inductive FetchRes where
  | ok (body : String)
  | httpError (status : Nat)
  | requestExc
  | exhausted
deriving DecidableEq, Repr

/-- Observable behaviour of one fetch_html call. -/
structure FetchOut where
  res : FetchRes
  sleeps : List Nat
  cached : Option String
deriving DecidableEq, Repr

/-- The statuses the retry loop treats as transient. -/
def transientStatus (s : Nat) : Bool := s = 429 || s = 403 || s = 503

/-- The last-attempt cache fallback inside the except branch: return the
cache entry if it exists and reads, else re-raise. -/
def cacheFallback (env : FetchEnv) (fail : FetchRes) (sleeps : List Nat) : FetchOut :=
  if env.cacheExists then
    match env.cacheRead with
    | some s => ⟨FetchRes.ok s, sleeps, none⟩
    | none => ⟨fail, sleeps, none⟩
  else ⟨fail, sleeps, none⟩

/-- The retry loop of fetch_html (max_retries = 3, attempt 0-based, fuel =
attempts remaining).  HTTP 200 returns and caches; 429/403/503 sleeps
2^attempt + 1 except on the last attempt; statuses in 400..599 raise
through raise_for_status into the except branch, which sleeps 1 second
or, on the last attempt, falls back to the cache; all other statuses make
raise_for_status return so the loop just continues. -/
def fetchLoop (env : FetchEnv) : Nat → Nat → List Nat → FetchOut
  | _, 0, sleeps => ⟨FetchRes.exhausted, sleeps, none⟩
  | attempt, fuel+1, sleeps =>
    match env.attempts.getD attempt Attempt.exc with
    | Attempt.resp status body =>
      if status = 200 then ⟨FetchRes.ok body, sleeps, some body⟩
      else if transientStatus status then
        if attempt < 2 then fetchLoop env (attempt+1) fuel (sleeps ++ [2 ^ attempt + 1])
        else fetchLoop env (attempt+1) fuel sleeps
      else if 400 ≤ status ∧ status < 600 then
        if attempt = 2 then cacheFallback env (FetchRes.httpError status) sleeps
        else fetchLoop env (attempt+1) fuel (sleeps ++ [1])
      else fetchLoop env (attempt+1) fuel sleeps
    | Attempt.exc =>
      if attempt = 2 then cacheFallback env FetchRes.requestExc sleeps
      else fetchLoop env (attempt+1) fuel (sleeps ++ [1])

/-- Embeds fetch_html: cache-first when requested (a failed cache read
falls through to the network), then the three-attempt retry loop. -/
def fetch_html (env : FetchEnv) : FetchOut :=
  if env.useCache ∧ env.cacheExists then
    match env.cacheRead with
    | some s => ⟨FetchRes.ok s, [], none⟩
    | none => fetchLoop env 0 3 []
  else fetchLoop env 0 3 []

/-!
Parser (src/scraper.py, parse_poem and extract_poem_text_from_body).

BeautifulSoup never raises on malformed markup, so the soup reachable from
any raw input string is modelled abstractly: the pieces of the page the
parser queries (canonical link, the card--poem-full article and its
fields, the JSON-LD scripts with their json.loads outcome) are the Doc
structure's fields.  Per-element text is the get_text() string after the
source's br-to-newline and long-line-span preprocessing.
-/

/-- An anchor element: its text and optional href attribute. -/
structure LinkElem where
  text : String
  href : Option String
deriving DecidableEq, Repr

/-- The author field block: the specially marked byline link if any, and
the first generic link if any. -/
structure AuthorField where
  bylineLink : Option LinkElem
  anyLink : Option LinkElem
deriving DecidableEq, Repr

/-- The field--body element: its raw markup, the text of each p/div block
found inside it, and its own whole text for the no-blocks case. -/
structure BodyElem where
  rawHtml : String
  paras : List String
  wholeText : String
deriving DecidableEq, Repr

/-- The card--poem-full article and the fields parse_poem reads from it. -/
structure ArticleElem where
  dataPoemUuid : Option String
  h1Text : Option String
  authorField : Option AuthorField
  themesTexts : Option (List String)
  aboutText : Option String
  creditText : Option String
  body : Option BodyElem
deriving DecidableEq, Repr

/-- The soup of one fetched page, as parse_poem queries it.  canonicalHref
is (link element present?, its href attribute); jsonLd holds each
application/ld+json script's json.loads outcome (none when loads raises). -/
structure Doc where
  canonicalHref : Option (Option String)
  article : Option ArticleElem
  jsonLd : List (Option Json)
deriving DecidableEq, Repr

/-- The PoemMeta dataclass. -/
structure PoemMeta where
  url : String
  canonical_url : Option String := none
  poem_uuid : Option String := none
  title : Option String := none
  author : Option String := none
  author_href : Option String := none
  date_published : Option Json := none
  date_modified : Option Json := none
  themes : List String := []
  about : Option String := none
  public_domain : Bool := false
deriving DecidableEq, Repr

/-- The PoemText dataclass. -/
structure PoemText where
  raw_html : String
  text : String
deriving DecidableEq, Repr

/-- Python substring membership (`pat in l`). -/
def containsSub (pat : List Char) : List Char → Bool
  | [] => pat.isEmpty
  | c :: r => pat.isPrefixOf (c :: r) || containsSub pat r

/-- clean_text applied to an arbitrary JSON value: falsy values give "",
strings are cleaned, any other truthy value raises AttributeError at
text.replace (not caught by the JSON-LD except clauses). -/
def cleanTextJson (v : Json) : Except PyExn String :=
  if v.truthy then
    match v with
    | Json.str s => Except.ok (clean_text s)
    | _ => Except.error PyExn.attributeError
  else Except.ok ""

/-- How iterating over a @graph value behaves in Python. -/
inductive GraphIter where
  | notIter
  | items (xs : List Json)
  | strChars (n : Nat)
  | dictKeys (ks : List String)
deriving DecidableEq, Repr

/-- Dispatch for `for item in data['@graph']`: lists yield elements,
strings yield 1-character strings, dicts yield their keys, anything else
raises TypeError (which the except clause catches). -/
def graphIterOf : Json → GraphIter
  | Json.arrNil => GraphIter.items []
  | Json.arrCons hd tl => GraphIter.items (Json.arrCons hd tl).elemsOf
  | Json.str s => GraphIter.strChars s.length
  | Json.objNil => GraphIter.dictKeys []
  | Json.objCons k v tl => GraphIter.dictKeys (Json.objCons k v tl).keysOf
  | _ => GraphIter.notIter

/-- State threaded through the first JSON-LD loop: meta.title,
meta.date_published, meta.date_modified. -/
structure MetaSt where
  title : Option String
  datePub : Option Json
  dateMod : Option Json
deriving DecidableEq, Repr

/-- Python falsiness of the title attribute (None or ""). -/
def optStrFalsy : Option String → Bool
  | none => true
  | some s => s = ""

/-- The first JSON-LD loop's update at an Article item: headline fills a
falsy title, datePublished/dateModified are taken verbatim. -/
def articleUpdate1 (st : MetaSt) (item : Json) : Except PyExn MetaSt :=
  match (if optStrFalsy st.title ∧ item.hasKey "headline" then
           match cleanTextJson ((item.lookupKey "headline").getD Json.null) with
           | Except.error e => Except.error e
           | Except.ok s => Except.ok (some s)
         else Except.ok st.title) with
  | Except.error e => Except.error e
  | Except.ok t =>
    Except.ok ⟨t,
      (if item.hasKey "datePublished" then (item.lookupKey "datePublished") else st.datePub),
      (if item.hasKey "dateModified" then (item.lookupKey "dateModified") else st.dateMod)⟩

/-- The first JSON-LD loop's item iteration: item.get on a non-dict item
raises AttributeError (uncaught); the first Article item is used and the
iteration breaks. -/
def loop1Items (st : MetaSt) : List Json → Except PyExn MetaSt
  | [] => Except.ok st
  | item :: rest =>
    if item.isObjB then
      if (item.lookupKey "@type").getD Json.null = Json.str "Article" then
        articleUpdate1 st item
      else loop1Items st rest
    else Except.error PyExn.attributeError

/-- Processing of one script in the first JSON-LD loop; a failed
json.loads and a non-iterable @graph are caught and skipped. -/
def script1 (st : MetaSt) (s : Option Json) : Except PyExn MetaSt :=
  match s with
  | none => Except.ok st
  | some d =>
    if d.isObjB ∧ d.hasKey "@graph" then
      match graphIterOf ((d.lookupKey "@graph").getD Json.null) with
      | GraphIter.notIter => Except.ok st
      | GraphIter.items xs => loop1Items st xs
      | GraphIter.strChars 0 => Except.ok st
      | GraphIter.strChars (_+1) => Except.error PyExn.attributeError
      | GraphIter.dictKeys [] => Except.ok st
      | GraphIter.dictKeys (_ :: _) => Except.error PyExn.attributeError
    else Except.ok st

/-- The first JSON-LD loop over all scripts. -/
def jsonLdFold1 (st : MetaSt) : List (Option Json) → Except PyExn MetaSt
  | [] => Except.ok st
  | s :: rest =>
    match script1 st s with
    | Except.error e => Except.error e
    | Except.ok st1 => jsonLdFold1 st1 rest

/-- The fallback loop's item iteration: the first Article item carrying a
description sets the poem text (escaped newlines made real) and breaks. -/
def loop2Items (cur : String) : List Json → Except PyExn String
  | [] => Except.ok cur
  | item :: rest =>
    if item.isObjB then
      if (item.lookupKey "@type").getD Json.null = Json.str "Article" ∧
          item.hasKey "description" then
        match cleanTextJson ((item.lookupKey "description").getD Json.null) with
        | Except.error e => Except.error e
        | Except.ok t => Except.ok (String.mk (replaceAllC ['\\', 'n'] ['\n'] t.data))
      else loop2Items cur rest
    else Except.error PyExn.attributeError

/-- Processing of one script in the fallback JSON-LD loop. -/
def script2 (cur : String) (s : Option Json) : Except PyExn String :=
  match s with
  | none => Except.ok cur
  | some d =>
    if d.isObjB ∧ d.hasKey "@graph" then
      match graphIterOf ((d.lookupKey "@graph").getD Json.null) with
      | GraphIter.notIter => Except.ok cur
      | GraphIter.items xs => loop2Items cur xs
      | GraphIter.strChars 0 => Except.ok cur
      | GraphIter.strChars (_+1) => Except.error PyExn.attributeError
      | GraphIter.dictKeys [] => Except.ok cur
      | GraphIter.dictKeys (_ :: _) => Except.error PyExn.attributeError
    else Except.ok cur

/-- The fallback JSON-LD loop over all scripts (the inner break does not
break the outer loop, so a later script's description wins). -/
def jsonLdFold2 (cur : String) : List (Option Json) → Except PyExn String
  | [] => Except.ok cur
  | s :: rest =>
    match script2 cur s with
    | Except.error e => Except.error e
    | Except.ok c1 => jsonLdFold2 c1 rest

/-- One paragraph's stanza: clean the text, strip each line's trailing
whitespace, and strip the block. -/
def stanzaOfString (p : String) : String :=
  String.mk (pyStripC (joinSepC ['\n'] ((splitNlC (clean_text p).data).map pyRstripC)))

/-- The surviving stanza blocks of a body element (nonempty after strip),
using the whole body as one block when no p/div exists. -/
def bodyStanzas (b : BodyElem) : List String :=
  let ps := if b.paras.isEmpty then [b.wholeText] else b.paras
  (ps.map stanzaOfString).filter (fun s => s ≠ "")

/-- Embeds extract_poem_text_from_body: stanzas joined with one blank
line. -/
def extract_poem_text_from_body : Option BodyElem → String
  | none => ""
  | some b => String.mk (joinSepC ['\n', '\n'] ((bodyStanzas b).map String.data))

/-- Embeds parse_poem. -/
def parse_poem (doc : Doc) (url : String) : Except PyExn (PoemMeta × PoemText) :=
  let canonical_url : Option String :=
    match doc.canonicalHref with
    | some (some h) => if h ≠ "" then some h else none
    | _ => none
  let poem_uuid := doc.article.bind (fun a => a.dataPoemUuid)
  let title0 := doc.article.bind (fun a => a.h1Text.map clean_text)
  let authorPair : Option (String × Option String) :=
    doc.article.bind fun a =>
      a.authorField.bind fun af =>
        match af.bylineLink with
        | some l => some (clean_text l.text, l.href)
        | none =>
          match af.anyLink with
          | some l => some (clean_text l.text, l.href)
          | none => none
  let themes := ((doc.article.bind (fun a => a.themesTexts)).map (List.map clean_text)).getD []
  let about := doc.article.bind (fun a => a.aboutText.map clean_text)
  let public_domain :=
    match doc.article.bind (fun a => a.creditText) with
    | some c => containsSub ("public domain").data (pyLowerC c.data)
    | none => false
  match jsonLdFold1 ⟨title0, none, none⟩ doc.jsonLd with
  | Except.error e => Except.error e
  | Except.ok st =>
    let bodyOpt := doc.article.bind (fun a => a.body)
    let raw_html := match bodyOpt with | some b => b.rawHtml | none => ""
    let ptext0 := match bodyOpt with
      | some b => extract_poem_text_from_body (some b)
      | none => ""
    match (if pyStrip ptext0 = "" then jsonLdFold2 ptext0 doc.jsonLd else Except.ok ptext0) with
    | Except.error e => Except.error e
    | Except.ok ptext =>
      Except.ok ({ url := url, canonical_url := canonical_url, poem_uuid := poem_uuid,
                   title := st.title, author := authorPair.map Prod.fst,
                   author_href := authorPair.bind Prod.snd,
                   date_published := st.datePub, date_modified := st.dateMod,
                   themes := themes, about := about, public_domain := public_domain },
                 ⟨raw_html, ptext⟩)

/-!
General-purpose lemmas about the modelled Python primitives.
-/

/-- Char.ofNat round-trips on values below the surrogate range. -/
theorem charOfNat_toNat (n : Nat) (h : n < 55296) : (Char.ofNat n).toNat = n := by
  have hv : n.isValidChar := Or.inl h
  simp only [Char.ofNat, dif_pos hv]
  rfl

/-- Characters with equal code points are equal. -/
theorem char_eq_of_toNat_eq {c d : Char} (h : c.toNat = d.toNat) : c = d := by
  apply Char.eq_of_val_eq
  exact UInt32.ext h

/-- Char.ofNat inverts Char.toNat. -/
theorem charOfNat_toNat_self (c : Char) : Char.ofNat c.toNat = c := by
  apply char_eq_of_toNat_eq
  rcases c.valid with h | h
  · exact charOfNat_toNat c.toNat h
  · have hv : c.toNat.isValidChar := Or.inr h
    simp only [Char.ofNat, dif_pos hv]
    rfl

/-- Unfolding of Char.toLower. -/
theorem toLower_eq (c : Char) :
    c.toLower = if c.toNat ≥ 65 ∧ c.toNat ≤ 90 then Char.ofNat (c.toNat + 32) else c := rfl

/-- Unfolding of Char.toUpper. -/
theorem toUpper_eq (c : Char) :
    c.toUpper = if c.toNat ≥ 97 ∧ c.toNat ≤ 122 then Char.ofNat (c.toNat - 32) else c := rfl

/-- Lowercasing is idempotent. -/
theorem toLower_toLower (c : Char) : c.toLower.toLower = c.toLower := by
  by_cases h : c.toNat ≥ 65 ∧ c.toNat ≤ 90
  · rw [toLower_eq c, if_pos h, toLower_eq]
    have h1 : (Char.ofNat (c.toNat + 32)).toNat = c.toNat + 32 := charOfNat_toNat _ (by omega)
    rw [if_neg (by omega)]
  · rw [toLower_eq c, if_neg h, toLower_eq, if_neg h]

/-- Upper-casing a lower-cased character and lowering again is lowering. -/
theorem toLower_toUpper_toLower (c : Char) : c.toLower.toUpper.toLower = c.toLower := by
  by_cases h : c.toNat ≥ 65 ∧ c.toNat ≤ 90
  · have hl : c.toLower = Char.ofNat (c.toNat + 32) := by rw [toLower_eq, if_pos h]
    have h1 : (Char.ofNat (c.toNat + 32)).toNat = c.toNat + 32 := charOfNat_toNat _ (by omega)
    rw [hl, toUpper_eq, if_pos (by omega), h1]
    have h2 : (Char.ofNat (c.toNat + 32 - 32)).toNat = c.toNat := by
      have := charOfNat_toNat (c.toNat + 32 - 32) (by omega)
      omega
    rw [toLower_eq, if_pos (by omega), h2]
  · have hl : c.toLower = c := by rw [toLower_eq, if_neg h]
    rw [hl]
    by_cases h2 : c.toNat ≥ 97 ∧ c.toNat ≤ 122
    · rw [toUpper_eq, if_pos h2]
      have h3 : (Char.ofNat (c.toNat - 32)).toNat = c.toNat - 32 := charOfNat_toNat _ (by omega)
      rw [toLower_eq, if_pos (by omega), h3]
      have h4 : c.toNat - 32 + 32 = c.toNat := by omega
      rw [h4, charOfNat_toNat_self]
    · rw [toUpper_eq, if_neg h2, hl]

/-- pyLowerC is idempotent. -/
theorem pyLowerC_idem (l : List Char) : pyLowerC (pyLowerC l) = pyLowerC l := by
  simp only [pyLowerC, List.map_map]
  apply List.map_congr_left
  intro c _
  exact toLower_toLower c

/-- Lowering a capitalized lowered list gives the lowered list back. -/
theorem pyLowerC_capitalize (l : List Char) :
    pyLowerC (pyCapitalizeC (pyLowerC l)) = pyLowerC l := by
  cases l with
  | nil => rfl
  | cons c r =>
    simp only [pyLowerC, List.map_cons, pyCapitalizeC]
    rw [toLower_toUpper_toLower c]
    congr 1
    simp only [List.map_map]
    apply List.map_congr_left
    intro d _
    show d.toLower.toLower.toLower = d.toLower
    rw [toLower_toLower, toLower_toLower]

/-- fetch_html goes to the network whenever the cache-first return is not
taken. -/
theorem fetch_html_net (env : FetchEnv)
    (h : env.useCache = false ∨ env.cacheExists = false ∨ env.cacheRead = none) :
    fetch_html env = fetchLoop env 0 3 [] := by
  rcases env with ⟨uc, ce, cr, att⟩
  rcases h with h | h | h
  · subst h; simp [fetch_html]
  · subst h; simp [fetch_html]
  · subst h; simp [fetch_html]

/-- Three transient statuses exhaust the retries: two backoff sleeps, no
sleep after the final attempt, no cache fallback. -/
theorem fetch_all_transient_exhausted (env : FetchEnv) (b1 b2 b3 : String) (s0 s1 s2 : Nat)
    (hnet : env.useCache = false ∨ env.cacheExists = false ∨ env.cacheRead = none)
    (h0 : transientStatus s0 = true) (h1 : transientStatus s1 = true)
    (h2 : transientStatus s2 = true)
    (hatt : env.attempts = [Attempt.resp s0 b1, Attempt.resp s1 b2, Attempt.resp s2 b3]) :
    fetch_html env = ⟨FetchRes.exhausted, [2, 3], none⟩ := by
  have hloop := fetch_html_net env hnet
  rcases env with ⟨uc, ce, cr, att⟩
  rw [hloop]
  subst hatt
  simp only [transientStatus, Bool.or_eq_true, decide_eq_true_eq] at h0 h1 h2
  rcases h0 with (rfl | rfl) | rfl <;> rcases h1 with (rfl | rfl) | rfl <;>
    rcases h2 with (rfl | rfl) | rfl <;> rfl

/-- C4: with a cold or disabled cache, 429 on the first two attempts and
200 on the third makes fetch succeed with the third body after sleeping 2
then 3 seconds (backoff 2^attempt + 1, attempts 0-based); and when every
attempt returns a transient status the loop still sleeps only twice — no
wait follows a transient status on the final attempt — and fetch raises
the retries-exhausted error. -/
theorem fetch_retry_backoff_spec (env : FetchEnv) (b1 b2 b3 : String) (s0 s1 s2 : Nat)
    (hnet : env.useCache = false ∨ env.cacheExists = false ∨ env.cacheRead = none) :
    (env.attempts = [Attempt.resp 429 b1, Attempt.resp 429 b2, Attempt.resp 200 b3] →
      fetch_html env = ⟨FetchRes.ok b3, [2, 3], some b3⟩) ∧
    (transientStatus s0 = true → transientStatus s1 = true → transientStatus s2 = true →
      env.attempts = [Attempt.resp s0 b1, Attempt.resp s1 b2, Attempt.resp s2 b3] →
      fetch_html env = ⟨FetchRes.exhausted, [2, 3], none⟩) := by
  constructor
  · intro hatt
    rw [fetch_html_net env hnet]
    rcases env with ⟨uc, ce, cr, att⟩
    subst hatt
    rfl
  · intro h0 h1 h2 hatt
    exact fetch_all_transient_exhausted env b1 b2 b3 s0 s1 s2 hnet h0 h1 h2 hatt

/-- Witness for fetch_retry_backoff_spec at concrete attempt lists. -/
theorem fetch_retry_backoff_spec_witness :
    fetch_html ⟨false, false, none, [Attempt.resp 429 "a", Attempt.resp 429 "b",
        Attempt.resp 200 "c"]⟩ = ⟨FetchRes.ok "c", [2, 3], some "c"⟩ ∧
    fetch_html ⟨false, true, some "z", [Attempt.resp 429 "a", Attempt.resp 503 "b",
        Attempt.resp 429 "c"]⟩ = ⟨FetchRes.exhausted, [2, 3], none⟩ := by
  constructor
  · exact (fetch_retry_backoff_spec ⟨false, false, none, _⟩ "a" "b" "c" 429 503 429
      (Or.inl rfl)).1 rfl
  · exact (fetch_retry_backoff_spec ⟨false, true, some "z", _⟩ "a" "b" "c" 429 503 429
      (Or.inl rfl)).2 rfl rfl rfl rfl

/-- C10 counterexample: the cache entry exists, useCache is false, and the
final attempt ends in HTTP 404 — an HTTP error status, not a
network/timeout exception — yet fetch falls back to the cache and
succeeds, because raise_for_status's HTTPError is caught by the same
except clause. -/
theorem fetch_fallback_on_http_error_counterexample :
    fetch_html ⟨false, true, some "cached", [Attempt.exc, Attempt.exc, Attempt.resp 404 "x"]⟩ =
      ⟨FetchRes.ok "cached", [1, 1], none⟩ := rfl

/-- C10 amended: when the network is used, exhausting all three attempts
on transient statuses raises without consulting the cache; the
final-attempt cache fallback is taken when the final attempt raises a
requests exception — a network/timeout error, or raise_for_status on a
non-transient error status — never for a transient status. -/
theorem fetch_cache_fallback_spec (env : FetchEnv) (c b0 b1 b2 : String) (s0 s1 s2 s : Nat) :
    ((env.useCache = false ∨ env.cacheRead = none) →
      transientStatus s0 = true → transientStatus s1 = true → transientStatus s2 = true →
      env.attempts = [Attempt.resp s0 b0, Attempt.resp s1 b1, Attempt.resp s2 b2] →
      fetch_html env = ⟨FetchRes.exhausted, [2, 3], none⟩) ∧
    (env.useCache = false → env.cacheExists = true → env.cacheRead = some c →
      env.attempts = [Attempt.exc, Attempt.exc, Attempt.exc] →
      fetch_html env = ⟨FetchRes.ok c, [1, 1], none⟩) ∧
    (env.useCache = false → env.cacheExists = true → env.cacheRead = some c →
      400 ≤ s → s < 600 → transientStatus s = false →
      env.attempts = [Attempt.exc, Attempt.exc, Attempt.resp s b2] →
      fetch_html env = ⟨FetchRes.ok c, [1, 1], none⟩) := by
  rcases env with ⟨uc, ce, cr, att⟩
  refine ⟨?_, ?_, ?_⟩
  · intro hnet h0 h1 h2 hatt
    exact fetch_all_transient_exhausted ⟨uc, ce, cr, att⟩ b0 b1 b2 s0 s1 s2
      (by rcases hnet with h | h; exacts [Or.inl h, Or.inr (Or.inr h)]) h0 h1 h2 hatt
  · intro huc hce hcr hatt
    subst huc; subst hce; subst hcr; subst hatt
    rfl
  · intro huc hce hcr h400 h600 htr hatt
    subst huc; subst hce; subst hcr; subst hatt
    rw [fetch_html_net _ (Or.inl rfl)]
    have hs200 : ¬(s = 200) := by omega
    simp only [fetchLoop, List.getD, cacheFallback]
    simp [hs200, htr, h400, h600]

/-- Witness for fetch_cache_fallback_spec at concrete inputs. -/
theorem fetch_cache_fallback_spec_witness :
    fetch_html ⟨false, true, some "z", [Attempt.resp 429 "a", Attempt.resp 403 "b",
        Attempt.resp 503 "c"]⟩ = ⟨FetchRes.exhausted, [2, 3], none⟩ ∧
    fetch_html ⟨false, true, some "z", [Attempt.exc, Attempt.exc, Attempt.exc]⟩ =
      ⟨FetchRes.ok "z", [1, 1], none⟩ ∧
    fetch_html ⟨false, true, some "z", [Attempt.exc, Attempt.exc, Attempt.resp 500 "x"]⟩ =
      ⟨FetchRes.ok "z", [1, 1], none⟩ := by
  refine ⟨?_, ?_, ?_⟩
  · exact (fetch_cache_fallback_spec ⟨false, true, some "z", _⟩ "z" "a" "b" "c" 429 403 503
      500).1 (Or.inl rfl) rfl rfl rfl rfl
  · exact (fetch_cache_fallback_spec ⟨false, true, some "z", _⟩ "z" "a" "b" "c" 429 403 503
      500).2.1 rfl rfl rfl rfl
  · exact (fetch_cache_fallback_spec ⟨false, true, some "z", _⟩ "z" "a" "b" "x" 429 403 503
      500).2.2 rfl rfl rfl (by omega) (by omega) rfl rfl

/-- A page whose only JSON-LD script is a well-formed JSON object whose
@graph list contains a non-object entry. -/
def docGraphNonObject : Doc :=
  ⟨none, none, [some (Json.objOf [("@graph", Json.arrOf [Json.num 1])])]⟩

/-- C5: parse_poem is not total — at a page whose JSON-LD @graph holds a
non-object item, item.get raises AttributeError, which the except clause
(JSONDecodeError, KeyError, TypeError) does not catch, so parse raises
instead of returning a (meta, text) pair. -/
theorem parse_poem_raises_on_nonobject_graph_item :
    parse_poem docGraphNonObject "https://example.com/poem" =
      Except.error PyExn.attributeError := rfl

/-- The log scan distributes over list append. -/
theorem latestFold_append (uF cF : Option String) (l1 l2 : List LogLine) :
    ∀ acc, latestFold uF cF acc (l1 ++ l2) =
      match latestFold uF cF acc l1 with
      | Except.error e => Except.error e
      | Except.ok a => latestFold uF cF a l2 := by
  induction l1 with
  | nil => intro acc; rfl
  | cons hd tl ih =>
    intro acc
    cases hd with
    | blank => simpa [latestFold] using ih acc
    | malformed => simpa [latestFold] using ih acc
    | json j =>
      simp only [List.cons_append, latestFold]
      cases filterStep uF cF j with
      | error e => rfl
      | ok keep =>
        cases keep with
        | false => exact ih acc
        | true =>
          cases dict_to_coding_record j with
          | error e => rfl
          | ok r => exact ih (some r)

/-- Serializing a record with save_record and deserializing the dict with
_dict_to_coding_record restores every field. -/
theorem dict_roundtrip (r : CodingRecord) :
    dict_to_coding_record (Json.objOf (record_to_dict r)) = Except.ok r := rfl

/-- The appended line of save_record passes the url filter of
latest_record_for and converts back to the record itself. -/
theorem latestFold_saved_line (u : String) (r : CodingRecord) (acc : Option CodingRecord)
    (hu : r.url = Json.str u) :
    latestFold (some u) none acc [LogLine.json (Json.objOf (record_to_dict r))] =
      Except.ok (some r) := by
  have hurl : pyGet (Json.objOf (record_to_dict r)) "url" = Except.ok r.url := rfl
  have hfilter : filterStep (some u) none (Json.objOf (record_to_dict r)) = Except.ok true := by
    unfold filterStep
    by_cases h0 : u = ""
    · subst h0
      simp [optStrTruthy, filterCoder]
    · have ht : optStrTruthy (some u) = true := by simp [optStrTruthy, h0]
      simp [ht, hurl, hu, filterCoder, optStrTruthy]
  simp [latestFold, hfilter, dict_roundtrip]

/-- C2: appending a record R with save_record and reading back with
latest_record_for(R.url) returns R itself, field for field, whenever the
scan of the pre-existing log does not raise. -/
theorem save_then_latest_roundtrip (log : List LogLine) (r : CodingRecord) (u : String)
    (hu : r.url = Json.str u) (h : ∃ v, latest_record_for log u = Except.ok v) :
    latest_record_for (save_record log r) u = Except.ok (some r) := by
  obtain ⟨v, hv⟩ := h
  unfold latest_record_for at hv ⊢
  unfold save_record
  rw [latestFold_append (some u) none log _ none, hv]
  exact latestFold_saved_line u r v hu

/-- Witness for save_then_latest_roundtrip on the empty log. -/
theorem save_then_latest_roundtrip_witness :
    latest_record_for (save_record []
      ⟨Json.str "2024-01-01T00:00:00", Json.str "coder1", Json.str "https://p.org/a",
       Json.null, Json.str "T", Json.null, Json.null, Json.null, Json.null,
       Json.arrOf [Json.str "love"], Json.arrOf [Json.str "joy"], Json.num 3, Json.num (-2),
       Json.str "", Json.bool true, Json.str "abc", Json.bool true, Json.null, Json.null⟩)
      "https://p.org/a" =
      Except.ok (some
      ⟨Json.str "2024-01-01T00:00:00", Json.str "coder1", Json.str "https://p.org/a",
       Json.null, Json.str "T", Json.null, Json.null, Json.null, Json.null,
       Json.arrOf [Json.str "love"], Json.arrOf [Json.str "joy"], Json.num 3, Json.num (-2),
       Json.str "", Json.bool true, Json.str "abc", Json.bool true, Json.null, Json.null⟩) :=
  save_then_latest_roundtrip [] _ "https://p.org/a" rfl ⟨none, rfl⟩

/-- Parsed JSON lines of the log, in order. -/
def jsonLines (log : List LogLine) : List Json :=
  log.filterMap fun l => match l with | LogLine.json j => some j | _ => none

/-- The claim's matching criterion for latestForUrlAndCoder: records whose
url field equals the given url and whose coder_id field equals the trimmed
coder id. -/
def matchingDicts (log : List LogLine) (url coder_id : String) : List Json :=
  log.filterMap fun l =>
    match l with
    | LogLine.json j =>
      if (j.lookupKey "url").getD Json.null = Json.str url ∧
          (j.lookupKey "coder_id").getD Json.null = Json.str (pyStrip coder_id)
      then some j else none
    | _ => none

/-- Pure form of _dict_to_coding_record for dicts holding the three
required keys. -/
def dictToRecordPure (j : Json) : CodingRecord :=
  ⟨(j.lookupKey "timestamp_iso").getD Json.null, (j.lookupKey "coder_id").getD Json.null,
   (j.lookupKey "url").getD Json.null, (j.lookupKey "poem_uuid").getD Json.null,
   (j.lookupKey "title").getD Json.null, (j.lookupKey "author").getD Json.null,
   (j.lookupKey "year").getD Json.null, (j.lookupKey "group").getD Json.null,
   (j.lookupKey "author_url").getD Json.null, (j.lookupKey "tags").getD Json.arrNil,
   (j.lookupKey "moods").getD Json.arrNil, (j.lookupKey "sentiment_x").getD (Json.num 0),
   (j.lookupKey "sentiment_y").getD (Json.num 0), (j.lookupKey "notes").getD (Json.str ""),
   (j.lookupKey "is_complete").getD (Json.bool false),
   (j.lookupKey "html_sha1").getD (Json.str ""),
   (j.lookupKey "extraction_ok").getD (Json.bool true), (j.lookupKey "error").getD Json.null,
   (j.lookupKey "sentiment").getD Json.null⟩

/-- Keep the first option if present, else the second. -/
def optOr {α : Type} (o d : Option α) : Option α :=
  match o with
  | some x => some x
  | none => d

/-- optOr with no fallback. -/
theorem optOr_none {α : Type} (o : Option α) : optOr o none = o := by
  cases o <;> rfl

/-- dict.get on a dict never raises. -/
theorem pyGet_obj (j : Json) (k : String) (h : j.isObjB = true) :
    pyGet j k = Except.ok ((j.lookupKey k).getD Json.null) := by
  cases j <;> simp_all [pyGet, Json.isObjB, Json.lookupKey]

/-- dict.get with default on a dict never raises. -/
theorem pyGetD_obj (j : Json) (k : String) (d : Json) (h : j.isObjB = true) :
    pyGetD j k d = Except.ok ((j.lookupKey k).getD d) := by
  cases j <;> simp_all [pyGetD, Json.isObjB, Json.lookupKey]

/-- On a dict with the three required keys, _dict_to_coding_record
succeeds and equals the pure conversion. -/
theorem dict_to_coding_record_ok (j : Json) (hobj : j.isObjB = true)
    (h1 : j.hasKey "timestamp_iso" = true) (h2 : j.hasKey "coder_id" = true)
    (h3 : j.hasKey "url" = true) :
    dict_to_coding_record j = Except.ok (dictToRecordPure j) := by
  cases j with
  | objNil => simp [Json.hasKey, Json.lookupKey] at h1
  | objCons k v tl =>
    rw [Json.hasKey, Option.isSome_iff_exists] at h1 h2 h3
    obtain ⟨v1, e1⟩ := h1
    obtain ⟨v2, e2⟩ := h2
    obtain ⟨v3, e3⟩ := h3
    simp only [dict_to_coding_record, pyIndex, pyGet, pyGetD, e1, e2, e3, dictToRecordPure]
    rfl
  | null => simp [Json.isObjB] at hobj
  | bool b => simp [Json.isObjB] at hobj
  | num n => simp [Json.isObjB] at hobj
  | str s => simp [Json.isObjB] at hobj
  | arrNil => simp [Json.isObjB] at hobj
  | arrCons hd tl => simp [Json.isObjB] at hobj

/-- The whole string is whitespace when its strip is empty. -/
theorem ne_empty_of_pyStrip_ne (s : String) (h : pyStrip s ≠ "") : s ≠ "" := by
  intro he
  subst he
  exact h rfl

/-- With truthy filters and a dict record, the _read_jsonl_records filter
decides exactly the claim's matching criterion. -/
theorem filterStep_obj (url coder_id : String) (hurl : url ≠ "") (hcoder : coder_id ≠ "")
    (j : Json) (hobj : j.isObjB = true) :
    filterStep (some url) (some coder_id) j =
      Except.ok (decide ((j.lookupKey "url").getD Json.null = Json.str url ∧
        (j.lookupKey "coder_id").getD Json.null = Json.str (pyStrip coder_id))) := by
  have hgu := pyGet_obj j "url" hobj
  have hgc := pyGet_obj j "coder_id" hobj
  by_cases hmu : (j.lookupKey "url").getD Json.null = Json.str url <;>
    by_cases hmc : (j.lookupKey "coder_id").getD Json.null = Json.str (pyStrip coder_id) <;>
      simp [filterStep, filterCoder, optStrTruthy, hurl, hcoder, hgu, hgc, hmu, hmc]

/-- Unfolding jsonLines at a parsed line. -/
theorem jsonLines_cons_json (j : Json) (tl : List LogLine) :
    jsonLines (LogLine.json j :: tl) = j :: jsonLines tl := by
  simp [jsonLines, List.filterMap_cons]

/-- optOr over the last of a cons. -/
theorem optOr_getLast_cons {α : Type} (f : Json → α) (j : Json) (ms : List Json)
    (acc : Option α) :
    optOr (((j :: ms).getLast?).map f) acc = optOr ((ms.getLast?).map f) (some (f j)) := by
  cases ms with
  | nil => rfl
  | cons m ms2 =>
    rw [List.getLast?_cons_cons]
    cases h : (m :: ms2).getLast? with
    | none => simp at h
    | some x => rfl

/-- The latest_record_for_coder scan computes the last matching record of
the log, over logs of well-shaped lines. -/
theorem latestFold_matching (url coder_id : String) (hurl : url ≠ "")
    (hc : pyStrip coder_id ≠ "") (log : List LogLine)
    (hobj : ∀ j ∈ jsonLines log, j.isObjB = true)
    (hkeys : ∀ j ∈ matchingDicts log url coder_id, j.hasKey "timestamp_iso" = true ∧
      j.hasKey "coder_id" = true ∧ j.hasKey "url" = true) :
    ∀ acc, latestFold (some url) (some coder_id) acc log =
      Except.ok (optOr (((matchingDicts log url coder_id).getLast?).map dictToRecordPure) acc) := by
  have hcne : coder_id ≠ "" := ne_empty_of_pyStrip_ne coder_id hc
  induction log with
  | nil => intro acc; rfl
  | cons hd tl ih =>
    intro acc
    cases hd with
    | blank =>
      have htl := ih (by simpa [jsonLines, List.filterMap_cons] using hobj)
        (by simpa [matchingDicts, List.filterMap_cons] using hkeys)
      simpa [latestFold, matchingDicts, List.filterMap_cons] using htl acc
    | malformed =>
      have htl := ih (by simpa [jsonLines, List.filterMap_cons] using hobj)
        (by simpa [matchingDicts, List.filterMap_cons] using hkeys)
      simpa [latestFold, matchingDicts, List.filterMap_cons] using htl acc
    | json j =>
      have hobj0 : j.isObjB = true := by
        apply hobj
        rw [jsonLines_cons_json]
        exact List.mem_cons_self j _
      have hobjtl : ∀ x ∈ jsonLines tl, x.isObjB = true := by
        intro x hx
        apply hobj
        rw [jsonLines_cons_json]
        exact List.mem_cons_of_mem j hx
      by_cases hm : (j.lookupKey "url").getD Json.null = Json.str url ∧
          (j.lookupKey "coder_id").getD Json.null = Json.str (pyStrip coder_id)
      · have hmem : matchingDicts (LogLine.json j :: tl) url coder_id =
            j :: matchingDicts tl url coder_id := by
          simp [matchingDicts, List.filterMap_cons, hm]
        have hj : j ∈ matchingDicts (LogLine.json j :: tl) url coder_id := by
          rw [hmem]; exact List.mem_cons_self j _
        obtain ⟨hk1, hk2, hk3⟩ := hkeys j hj
        have hktl : ∀ x ∈ matchingDicts tl url coder_id, x.hasKey "timestamp_iso" = true ∧
            x.hasKey "coder_id" = true ∧ x.hasKey "url" = true := by
          intro x hx
          apply hkeys
          rw [hmem]
          exact List.mem_cons_of_mem j hx
        have hstep : latestFold (some url) (some coder_id) acc (LogLine.json j :: tl) =
            latestFold (some url) (some coder_id) (some (dictToRecordPure j)) tl := by
          simp [latestFold, filterStep_obj url coder_id hurl hcne j hobj0, hm,
            dict_to_coding_record_ok j hobj0 hk1 hk2 hk3]
        rw [hstep, ih hobjtl hktl (some (dictToRecordPure j)), hmem]
        rw [optOr_getLast_cons]
      · have hmem : matchingDicts (LogLine.json j :: tl) url coder_id =
            matchingDicts tl url coder_id := by
          simp [matchingDicts, List.filterMap_cons, hm]
        have hktl : ∀ x ∈ matchingDicts tl url coder_id, x.hasKey "timestamp_iso" = true ∧
            x.hasKey "coder_id" = true ∧ x.hasKey "url" = true := by
          intro x hx
          apply hkeys
          rw [hmem]
          exact hx
        have hstep : latestFold (some url) (some coder_id) acc (LogLine.json j :: tl) =
            latestFold (some url) (some coder_id) acc tl := by
          simp [latestFold, filterStep_obj url coder_id hurl hcne j hobj0, hm]
        rw [hstep, ih hobjtl hktl acc, hmem]

/-- C1 amended: a blank (empty or whitespace-only) coder id always yields
none; and for every NON-empty url, over a log whose parseable lines are
JSON objects and whose matching records carry the three required keys,
latestForUrlAndCoder returns exactly the record with the greatest append
order among those whose url and trimmed coder id match, or none when no
record matches.  (For url = "" the url filter is disabled, which the
counterexample exhibits.) -/
theorem latest_for_coder_spec :
    (∀ (log : List LogLine) (url coder_id : String), pyStrip coder_id = "" →
      latest_record_for_coder log url coder_id = Except.ok none) ∧
    (∀ (log : List LogLine) (url coder_id : String), url ≠ "" → pyStrip coder_id ≠ "" →
      (∀ j ∈ jsonLines log, j.isObjB = true) →
      (∀ j ∈ matchingDicts log url coder_id, j.hasKey "timestamp_iso" = true ∧
        j.hasKey "coder_id" = true ∧ j.hasKey "url" = true) →
      latest_record_for_coder log url coder_id =
        Except.ok (((matchingDicts log url coder_id).getLast?).map dictToRecordPure)) := by
  constructor
  · intro log url coder_id hblank
    simp [latest_record_for_coder, hblank]
  · intro log url coder_id hurl hc hobj hkeys
    unfold latest_record_for_coder
    rw [if_neg hc]
    rw [latestFold_matching url coder_id hurl hc log hobj hkeys none]
    rw [optOr_none]

/-- Witness for latest_for_coder_spec: a blank coder id, and a two-record
log where the second matching record wins. -/
theorem latest_for_coder_spec_witness :
    latest_record_for_coder [] "https://p.org/a" "  " = Except.ok none ∧
    latest_record_for_coder
      [LogLine.json (Json.objOf [("timestamp_iso", Json.str "t1"), ("coder_id", Json.str "c"),
        ("url", Json.str "https://p.org/a")]),
       LogLine.json (Json.objOf [("timestamp_iso", Json.str "t2"), ("coder_id", Json.str "c"),
        ("url", Json.str "https://p.org/a"), ("notes", Json.str "second")])]
      "https://p.org/a" " c " =
      Except.ok (some (dictToRecordPure (Json.objOf [("timestamp_iso", Json.str "t2"),
        ("coder_id", Json.str "c"), ("url", Json.str "https://p.org/a"),
        ("notes", Json.str "second")]))) := by
  constructor
  · exact latest_for_coder_spec.1 [] "https://p.org/a" "  " (by decide)
  · rw [latest_for_coder_spec.2 _ "https://p.org/a" " c " (by decide) (by decide)
      (by decide) (by decide)]
    rfl

/-- The single-record log of the C1 counterexample. -/
def logC1 : List LogLine :=
  [LogLine.json (Json.objOf [("timestamp_iso", Json.str "t"), ("coder_id", Json.str "c"),
    ("url", Json.str "a")])]

/-- C1 counterexample: with url = "" the url filter is falsy and disabled,
so latestForUrlAndCoder("", "c") returns the coder's record for url "a"
even though no record's url equals "" — the claim would require none. -/
theorem latest_for_coder_empty_url_counterexample :
    latest_record_for_coder logC1 "" "c" =
      Except.ok (some ⟨Json.str "t", Json.str "c", Json.str "a", Json.null, Json.null,
        Json.null, Json.null, Json.null, Json.null, Json.arrNil, Json.arrNil, Json.num 0,
        Json.num 0, Json.str "", Json.bool false, Json.str "", Json.bool true, Json.null,
        Json.null⟩) ∧
    matchingDicts logC1 "" "c" = [] := by
  constructor
  · rfl
  · rfl

/-- The stats pass distributes over append. -/
theorem statsFold_append (l1 l2 : List LogLine) :
    ∀ st, statsFold st (l1 ++ l2) =
      match statsFold st l1 with
      | Except.error e => Except.error e
      | Except.ok st1 => statsFold st1 l2 := by
  induction l1 with
  | nil => intro st; rfl
  | cons hd tl ih =>
    intro st
    cases hd with
    | blank => simpa [statsFold] using ih st
    | malformed => simpa [statsFold] using ih st
    | json j =>
      simp only [List.cons_append, statsFold]
      cases pyGet j "url" with
      | error e => rfl
      | ok url =>
        cases hu : url.truthy with
        | false => simp [hu]; exact ih st
        | true =>
          simp only [hu]
          cases pyGetD j "is_complete" (Json.bool false) with
          | error e => rfl
          | ok ic => exact ih _

/-- The completed-url pass distributes over append. -/
theorem completedFold_append (coderTrim : String) (l1 l2 : List LogLine) :
    ∀ s, completedFold coderTrim s (l1 ++ l2) =
      match completedFold coderTrim s l1 with
      | Except.error e => Except.error e
      | Except.ok s1 => completedFold coderTrim s1 l2 := by
  induction l1 with
  | nil => intro s; rfl
  | cons hd tl ih =>
    intro s
    cases hd with
    | blank => simpa [completedFold] using ih s
    | malformed => simpa [completedFold] using ih s
    | json j =>
      simp only [List.cons_append, completedFold]
      cases pyGet j "coder_id" with
      | error e => rfl
      | ok cid =>
        by_cases hc : cid = Json.str coderTrim
        · simp only [hc, if_pos rfl]
          cases pyGetD j "is_complete" (Json.bool false) with
          | error e => rfl
          | ok ic =>
            cases hic : ic.truthy with
            | false => simp [hic]; exact ih s
            | true =>
              simp only [hic]
              cases pyGet j "url" with
              | error e => rfl
              | ok u => simp; exact ih _
        · simp only [if_neg hc]
          exact ih s

/-- Reading records skips an injected malformed line. -/
theorem buildRecords_malformed (l1 l2 : List LogLine) :
    buildRecords (l1 ++ LogLine.malformed :: l2) = buildRecords (l1 ++ l2) := by
  induction l1 with
  | nil => rfl
  | cons hd tl ih =>
    cases hd with
    | blank => simpa [buildRecords] using ih
    | malformed => simpa [buildRecords] using ih
    | json j =>
      simp only [List.cons_append, buildRecords]
      have ih2 : buildRecords (tl.append (LogLine.malformed :: l2)) =
          buildRecords (tl.append l2) := ih
      rw [ih2]

/-- C3 amended: a malformed line in the log is invisible to
rebuildSnapshot and to every query operation (they skip it and process the
surrounding lines), and whenever at least one record parses,
rebuildSnapshot overwrites the snapshot in full — the result is
independent of the previous snapshot and has exactly one flat row per
valid record; when no record parses the snapshot file is left unchanged
(the counterexample). -/
theorem snapshot_rebuild_spec :
    (∀ (l1 l2 : List LogLine) (old : Snapshot),
      update_csv_snapshot (l1 ++ LogLine.malformed :: l2) old =
        update_csv_snapshot (l1 ++ l2) old) ∧
    (∀ (l1 l2 : List LogLine) (url coder_id : String),
      latest_record_for_coder (l1 ++ LogLine.malformed :: l2) url coder_id =
        latest_record_for_coder (l1 ++ l2) url coder_id) ∧
    (∀ (l1 l2 : List LogLine) (url : String),
      latest_record_for (l1 ++ LogLine.malformed :: l2) url =
        latest_record_for (l1 ++ l2) url) ∧
    (∀ (l1 l2 : List LogLine),
      get_coding_stats (l1 ++ LogLine.malformed :: l2) = get_coding_stats (l1 ++ l2)) ∧
    (∀ (l1 l2 : List LogLine) (coder_id : String),
      get_last_completed_index_for_coder (l1 ++ LogLine.malformed :: l2) coder_id =
        get_last_completed_index_for_coder (l1 ++ l2) coder_id) ∧
    (∀ (log : List LogLine) (old1 old2 : Snapshot) (recs : List Json),
      buildRecords log = Except.ok recs → recs ≠ [] →
      update_csv_snapshot log old1 = Except.ok (snapshotOf recs) ∧
      update_csv_snapshot log old2 = Except.ok (snapshotOf recs) ∧
      (snapshotOf recs).rows.length = recs.length) := by
  have hlf : ∀ (uF cF : Option String) (l1 l2 : List LogLine) (acc : Option CodingRecord),
      latestFold uF cF acc (l1 ++ LogLine.malformed :: l2) =
        latestFold uF cF acc (l1 ++ l2) := by
    intro uF cF l1 l2 acc
    rw [latestFold_append, latestFold_append]
    cases latestFold uF cF acc l1 with
    | error e => rfl
    | ok a => rfl
  refine ⟨?_, ?_, ?_, ?_, ?_, ?_⟩
  · intro l1 l2 old
    unfold update_csv_snapshot
    rw [buildRecords_malformed]
  · intro l1 l2 url coder_id
    unfold latest_record_for_coder
    by_cases hb : pyStrip coder_id = ""
    · rw [if_pos hb, if_pos hb]
    · rw [if_neg hb, if_neg hb, hlf]
  · intro l1 l2 url
    unfold latest_record_for
    rw [hlf]
  · intro l1 l2
    unfold get_coding_stats
    rw [statsFold_append, statsFold_append]
    cases statsFold ([], [], 0) l1 with
    | error e => rfl
    | ok st => rfl
  · intro l1 l2 coder_id
    unfold get_last_completed_index_for_coder
    by_cases hb : pyStrip coder_id = ""
    · rw [if_pos hb, if_pos hb]
    · rw [if_neg hb, if_neg hb, completedFold_append, completedFold_append]
      cases completedFold (pyStrip coder_id) [] l1 with
      | error e => rfl
      | ok s => rfl
  · intro log old1 old2 recs hrecs hne
    have he : recs.isEmpty = false := by
      cases recs with
      | nil => exact absurd rfl hne
      | cons a b => rfl
    unfold update_csv_snapshot
    simp [hrecs, he, snapshotOf]

/-- Witness for snapshot_rebuild_spec at a concrete log and snapshot. -/
theorem snapshot_rebuild_spec_witness :
    update_csv_snapshot [LogLine.malformed,
        LogLine.json (Json.objOf [("url", Json.str "a")])] ⟨["x"], []⟩ =
      update_csv_snapshot [LogLine.json (Json.objOf [("url", Json.str "a")])] ⟨["x"], []⟩ ∧
    get_coding_stats [LogLine.malformed] = get_coding_stats [] ∧
    update_csv_snapshot [LogLine.json (Json.objOf [("url", Json.str "a")])] ⟨["x"], []⟩ =
      Except.ok (snapshotOf [Json.objOf [("url", Json.str "a"),
        ("tags_joined", Json.str ""), ("moods_joined", Json.str "")]]) := by
  refine ⟨?_, ?_, ?_⟩
  · exact snapshot_rebuild_spec.1 [] [LogLine.json (Json.objOf [("url", Json.str "a")])]
      ⟨["x"], []⟩
  · exact snapshot_rebuild_spec.2.2.2.1 [] []
  · exact (snapshot_rebuild_spec.2.2.2.2.2 [LogLine.json (Json.objOf [("url", Json.str "a")])]
      ⟨["x"], []⟩ ⟨["x"], []⟩ _ rfl (by decide)).1

/-- C3 counterexample: rebuilding from a log whose only line is malformed
leaves the previous snapshot in place (`if records:` guards the write), so
the snapshot is not overwritten with zero rows. -/
theorem snapshot_stale_on_all_malformed_counterexample :
    update_csv_snapshot [LogLine.malformed] ⟨["url"], [[some (Json.str "stale")]]⟩ =
      Except.ok ⟨["url"], [[some (Json.str "stale")]]⟩ ∧
    buildRecords [LogLine.malformed] = Except.ok [] := ⟨rfl, rfl⟩

/-- The url field of a record dict, as the aggregate queries read it. -/
def recUrl (j : Json) : Json := (j.lookupKey "url").getD Json.null

/-- Urls counted by get_coding_stats: truthy url values of parsed records,
one per record, in order. -/
def seenUrls (log : List LogLine) : List Json :=
  (jsonLines log).filterMap fun j => if (recUrl j).truthy then some (recUrl j) else none

/-- Urls of parsed records with a truthy url and truthy is_complete. -/
def completedUrlsSpec (log : List LogLine) : List Json :=
  (jsonLines log).filterMap fun j =>
    if (recUrl j).truthy ∧ ((j.lookupKey "is_complete").getD (Json.bool false)).truthy
    then some (recUrl j) else none

/-- addSet inserts into the modelled set. -/
theorem addSet_toFinset (s : List Json) (v : Json) :
    (addSet s v).toFinset = insert v s.toFinset := by
  unfold addSet
  by_cases h : v ∈ s
  · rw [if_pos h]
    exact (Finset.insert_eq_self.2 (List.mem_toFinset.2 h)).symm
  · rw [if_neg h]
    exact List.toFinset_cons

/-- addSet keeps the modelled set duplicate-free. -/
theorem addSet_nodup (s : List Json) (v : Json) (h : s.Nodup) : (addSet s v).Nodup := by
  unfold addSet
  by_cases hm : v ∈ s
  · rw [if_pos hm]; exact h
  · rw [if_neg hm]; exact List.Nodup.cons hm h

/-- The stats pass, described by the spec-side url lists: the total count
grows by one per truthy-url record, and the two sets accumulate exactly
the seen and completed urls. -/
theorem statsFold_spec (log : List LogLine) (hobj : ∀ j ∈ jsonLines log, j.isObjB = true) :
    ∀ s c t, ∃ s1 c1, statsFold (s, c, t) log = Except.ok (s1, c1, t + (seenUrls log).length) ∧
      s1.toFinset = s.toFinset ∪ (seenUrls log).toFinset ∧
      c1.toFinset = c.toFinset ∪ (completedUrlsSpec log).toFinset ∧
      (s.Nodup → s1.Nodup) ∧ (c.Nodup → c1.Nodup) := by
  induction log with
  | nil =>
    intro s c t
    refine ⟨s, c, ?_, by simp [seenUrls, jsonLines], by simp [completedUrlsSpec, jsonLines],
      fun h => h, fun h => h⟩
    simp [statsFold, seenUrls, jsonLines]
  | cons hd tl ih =>
    intro s c t
    cases hd with
    | blank =>
      have h2 := ih (by simpa [jsonLines, List.filterMap_cons] using hobj) s c t
      simpa [statsFold, seenUrls, completedUrlsSpec, jsonLines, List.filterMap_cons] using h2
    | malformed =>
      have h2 := ih (by simpa [jsonLines, List.filterMap_cons] using hobj) s c t
      simpa [statsFold, seenUrls, completedUrlsSpec, jsonLines, List.filterMap_cons] using h2
    | json j =>
      have hobj0 : j.isObjB = true := hobj j (by
        rw [jsonLines_cons_json]; exact List.mem_cons_self j _)
      have hobjtl : ∀ x ∈ jsonLines tl, x.isObjB = true := fun x hx => hobj x (by
        rw [jsonLines_cons_json]; exact List.mem_cons_of_mem j hx)
      have hseen : seenUrls (LogLine.json j :: tl) =
          if (recUrl j).truthy then recUrl j :: seenUrls tl else seenUrls tl := by
        simp only [seenUrls, jsonLines_cons_json, List.filterMap_cons]
        by_cases ht : (recUrl j).truthy <;> simp [ht]
      have hcomp : completedUrlsSpec (LogLine.json j :: tl) =
          if (recUrl j).truthy ∧ ((j.lookupKey "is_complete").getD (Json.bool false)).truthy
          then recUrl j :: completedUrlsSpec tl else completedUrlsSpec tl := by
        simp only [completedUrlsSpec, jsonLines_cons_json, List.filterMap_cons]
        by_cases ht : (recUrl j).truthy ∧
            ((j.lookupKey "is_complete").getD (Json.bool false)).truthy <;> simp [ht]
      have hstep : ∀ st : List Json × List Json × Nat,
          statsFold st (LogLine.json j :: tl) =
            (if (recUrl j).truthy then
              statsFold (addSet st.1 (recUrl j),
                (if ((j.lookupKey "is_complete").getD (Json.bool false)).truthy then
                  addSet st.2.1 (recUrl j) else st.2.1), st.2.2 + 1) tl
            else statsFold st tl) := by
        intro st
        simp only [statsFold, pyGet_obj j "url" hobj0,
          pyGetD_obj j "is_complete" (Json.bool false) hobj0]
        rcases st with ⟨s0, c0, t0⟩
        by_cases ht : (recUrl j).truthy
        · rw [if_pos ht]
          simp only [recUrl] at ht ⊢
          rw [if_pos ht]
        · rw [if_neg ht]
          simp only [recUrl] at ht ⊢
          rw [if_neg ht]
      by_cases ht : (recUrl j).truthy
      · by_cases hic : ((j.lookupKey "is_complete").getD (Json.bool false)).truthy
        · obtain ⟨s1, c1, he, hs, hc2, hns, hnc⟩ :=
            ih hobjtl (addSet s (recUrl j)) (addSet c (recUrl j)) (t + 1)
          refine ⟨s1, c1, ?_, ?_, ?_, ?_, ?_⟩
          · rw [hstep (s, c, t), if_pos ht, if_pos hic, he, hseen, if_pos ht]
            simp only [List.length_cons]
            have harith : t + 1 + (seenUrls tl).length = t + ((seenUrls tl).length + 1) := by
              omega
            rw [harith]
          · rw [hs, addSet_toFinset, hseen, if_pos ht]
            simp [Finset.insert_union, Finset.union_insert]
          · rw [hc2, addSet_toFinset, hcomp, if_pos (And.intro ht hic)]
            simp [Finset.insert_union, Finset.union_insert]
          · intro hn; exact hns (addSet_nodup s _ hn)
          · intro hn; exact hnc (addSet_nodup c _ hn)
        · obtain ⟨s1, c1, he, hs, hc2, hns, hnc⟩ :=
            ih hobjtl (addSet s (recUrl j)) c (t + 1)
          refine ⟨s1, c1, ?_, ?_, ?_, ?_, ?_⟩
          · rw [hstep (s, c, t), if_pos ht, if_neg hic, he, hseen, if_pos ht]
            simp only [List.length_cons]
            have harith : t + 1 + (seenUrls tl).length = t + ((seenUrls tl).length + 1) := by
              omega
            rw [harith]
          · rw [hs, addSet_toFinset, hseen, if_pos ht]
            simp [Finset.insert_union, Finset.union_insert]
          · rw [hc2, hcomp, if_neg (fun h => hic h.2)]
          · intro hn; exact hns (addSet_nodup s _ hn)
          · exact hnc
      · obtain ⟨s1, c1, he, hs, hc2, hns, hnc⟩ := ih hobjtl s c t
        refine ⟨s1, c1, ?_, ?_, ?_, hns, hnc⟩
        · rw [hstep (s, c, t), if_neg ht, he, hseen, if_neg ht]
        · rw [hs, hseen, if_neg ht]
        · rw [hc2, hcomp, if_neg (fun h => ht h.1)]

/-- C7 amended: over a log of well-shaped lines, stats() returns
total_records = number of records with a truthy url, completed_records =
number of distinct truthy urls having at least one record with a truthy
is_complete, and unique_urls = number of distinct truthy urls; in
particular appending complete records for urls A and B and an incomplete
record for C gives completed_records = 2 and unique_urls = 3. -/
theorem get_coding_stats_spec :
    (∀ log : List LogLine, (∀ j ∈ jsonLines log, j.isObjB = true) →
      get_coding_stats log = Except.ok ((seenUrls log).length,
        (completedUrlsSpec log).dedup.length, (seenUrls log).dedup.length)) ∧
    get_coding_stats
      [LogLine.json (Json.objOf [("url", Json.str "A"), ("is_complete", Json.bool true)]),
       LogLine.json (Json.objOf [("url", Json.str "B"), ("is_complete", Json.bool true)]),
       LogLine.json (Json.objOf [("url", Json.str "C"), ("is_complete", Json.bool false)])] =
      Except.ok (3, 2, 3) := by
  constructor
  · intro log hobj
    obtain ⟨s1, c1, he, hs, hc, hns, hnc⟩ := statsFold_spec log hobj [] [] 0
    unfold get_coding_stats
    rw [he]
    have hs1 : s1.length = (seenUrls log).dedup.length := by
      rw [← List.card_toFinset, ← List.toFinset_card_of_nodup (hns List.nodup_nil), hs]
      simp
    have hc1 : c1.length = (completedUrlsSpec log).dedup.length := by
      rw [← List.card_toFinset, ← List.toFinset_card_of_nodup (hnc List.nodup_nil), hc]
      simp
    simp [hs1, hc1]
  · rfl

/-- Witness for get_coding_stats_spec over a concrete well-shaped log. -/
theorem get_coding_stats_spec_witness :
    get_coding_stats [LogLine.json (Json.objOf [("url", Json.str "A"),
        ("is_complete", Json.bool true)]), LogLine.malformed,
        LogLine.json (Json.objOf [("url", Json.str "A")])] =
      Except.ok (2, 1, 1) := by
  have h := get_coding_stats_spec.1 [LogLine.json (Json.objOf [("url", Json.str "A"),
      ("is_complete", Json.bool true)]), LogLine.malformed,
      LogLine.json (Json.objOf [("url", Json.str "A")])] (by decide)
  rw [h]
  rfl

/-- Truthy urls of records whose is_complete equals the boolean true, as
the claim's "isComplete=true" reads. -/
def trueCompletedUrls (log : List LogLine) : List Json :=
  (jsonLines log).filterMap fun j =>
    if (j.lookupKey "is_complete").getD Json.null = Json.bool true
    then some (recUrl j) else none

/-- C7 counterexample: a record whose is_complete is the truthy string
"false" is counted as complete by the code (Python truthiness), while no
record has isComplete=true, so the claim's completedRecords would be 0 but
stats reports 1. -/
theorem get_coding_stats_truthiness_counterexample :
    get_coding_stats [LogLine.json (Json.objOf [("url", Json.str "u"),
        ("is_complete", Json.str "false")])] = Except.ok (1, 1, 1) ∧
    (trueCompletedUrls [LogLine.json (Json.objOf [("url", Json.str "u"),
        ("is_complete", Json.str "false")])]).dedup.length = 0 := ⟨rfl, by decide⟩

/-- Url values (including null for a missing url) of records of the given
trimmed coder whose is_complete is truthy. -/
def coderCompletedUrls (log : List LogLine) (ct : String) : List Json :=
  (jsonLines log).filterMap fun j =>
    if (j.lookupKey "coder_id").getD Json.null = Json.str ct ∧
        ((j.lookupKey "is_complete").getD (Json.bool false)).truthy
    then some (recUrl j) else none

/-- The completed-url pass accumulates exactly the coder's completed url
values. -/
theorem completedFold_spec (ct : String) (log : List LogLine)
    (hobj : ∀ j ∈ jsonLines log, j.isObjB = true) :
    ∀ s, ∃ s1, completedFold ct s log = Except.ok s1 ∧
      s1.toFinset = s.toFinset ∪ (coderCompletedUrls log ct).toFinset ∧
      (s.Nodup → s1.Nodup) := by
  induction log with
  | nil =>
    intro s
    refine ⟨s, rfl, by simp [coderCompletedUrls, jsonLines], fun h => h⟩
  | cons hd tl ih =>
    intro s
    cases hd with
    | blank =>
      have h2 := ih (by simpa [jsonLines, List.filterMap_cons] using hobj) s
      simpa [completedFold, coderCompletedUrls, jsonLines, List.filterMap_cons] using h2
    | malformed =>
      have h2 := ih (by simpa [jsonLines, List.filterMap_cons] using hobj) s
      simpa [completedFold, coderCompletedUrls, jsonLines, List.filterMap_cons] using h2
    | json j =>
      have hobj0 : j.isObjB = true := hobj j (by
        rw [jsonLines_cons_json]; exact List.mem_cons_self j _)
      have hobjtl : ∀ x ∈ jsonLines tl, x.isObjB = true := fun x hx => hobj x (by
        rw [jsonLines_cons_json]; exact List.mem_cons_of_mem j hx)
      have hcc : coderCompletedUrls (LogLine.json j :: tl) ct =
          if (j.lookupKey "coder_id").getD Json.null = Json.str ct ∧
              ((j.lookupKey "is_complete").getD (Json.bool false)).truthy
          then recUrl j :: coderCompletedUrls tl ct else coderCompletedUrls tl ct := by
        simp only [coderCompletedUrls, jsonLines_cons_json, List.filterMap_cons]
        by_cases hcond : (j.lookupKey "coder_id").getD Json.null = Json.str ct ∧
            ((j.lookupKey "is_complete").getD (Json.bool false)).truthy <;> simp [hcond]
      by_cases hcid : (j.lookupKey "coder_id").getD Json.null = Json.str ct
      · by_cases hic : ((j.lookupKey "is_complete").getD (Json.bool false)).truthy
        · obtain ⟨s1, he, hs, hns⟩ := ih hobjtl (addSet s (recUrl j))
          refine ⟨s1, ?_, ?_, ?_⟩
          · simp only [completedFold, pyGet_obj j "coder_id" hobj0,
              pyGetD_obj j "is_complete" (Json.bool false) hobj0,
              pyGet_obj j "url" hobj0, if_pos hcid, hic, if_true]
            exact he
          · rw [hs, addSet_toFinset, hcc, if_pos (And.intro hcid hic)]
            simp [Finset.insert_union, Finset.union_insert]
          · intro hn; exact hns (addSet_nodup s _ hn)
        · obtain ⟨s1, he, hs, hns⟩ := ih hobjtl s
          refine ⟨s1, ?_, ?_, hns⟩
          · simp only [completedFold, pyGet_obj j "coder_id" hobj0,
              pyGetD_obj j "is_complete" (Json.bool false) hobj0, if_pos hcid]
            rw [if_neg hic]
            exact he
          · rw [hs, hcc, if_neg (fun h => hic h.2)]
      · obtain ⟨s1, he, hs, hns⟩ := ih hobjtl s
        refine ⟨s1, ?_, ?_, hns⟩
        · simp only [completedFold, pyGet_obj j "coder_id" hobj0, if_neg hcid]
          exact he
        · rw [hs, hcc, if_neg (fun h => hcid h.1)]

/-- Duplicate last elements do not change the deduplicated length. -/
theorem dedup_length_append_mem (l : List Json) (x : Json) (h : x ∈ l) :
    (l ++ [x]).dedup.length = l.dedup.length := by
  rw [← List.card_toFinset, ← List.card_toFinset]
  congr 1
  rw [List.toFinset_append]
  simp [h]

/-- C8 amended: for a well-shaped log and a non-blank coder id,
completedCountForCoder equals the number of distinct url field values
(null standing for a missing url) among the coder's records with truthy
is_complete; a blank coder id yields 0; and appending a duplicate
completion for an already-counted url leaves the count unchanged. -/
theorem completed_count_for_coder_spec :
    (∀ (log : List LogLine) (coder_id : String), pyStrip coder_id ≠ "" →
      (∀ j ∈ jsonLines log, j.isObjB = true) →
      get_last_completed_index_for_coder log coder_id =
        (coderCompletedUrls log (pyStrip coder_id)).dedup.length) ∧
    (∀ (log : List LogLine) (coder_id : String), pyStrip coder_id = "" →
      get_last_completed_index_for_coder log coder_id = 0) ∧
    (∀ (log : List LogLine) (coder_id : String) (j : Json), pyStrip coder_id ≠ "" →
      (∀ x ∈ jsonLines log, x.isObjB = true) → j.isObjB = true →
      (j.lookupKey "coder_id").getD Json.null = Json.str (pyStrip coder_id) →
      ((j.lookupKey "is_complete").getD (Json.bool false)).truthy = true →
      recUrl j ∈ coderCompletedUrls log (pyStrip coder_id) →
      get_last_completed_index_for_coder (log ++ [LogLine.json j]) coder_id =
        get_last_completed_index_for_coder log coder_id) := by
  have hmain : ∀ (log : List LogLine) (coder_id : String), pyStrip coder_id ≠ "" →
      (∀ j ∈ jsonLines log, j.isObjB = true) →
      get_last_completed_index_for_coder log coder_id =
        (coderCompletedUrls log (pyStrip coder_id)).dedup.length := by
    intro log coder_id hne hobj
    obtain ⟨s1, he, hs, hns⟩ := completedFold_spec (pyStrip coder_id) log hobj []
    unfold get_last_completed_index_for_coder
    rw [if_neg hne]
    simp only [he]
    rw [← List.card_toFinset, ← List.toFinset_card_of_nodup (hns List.nodup_nil), hs]
    simp
  refine ⟨hmain, ?_, ?_⟩
  · intro log coder_id hb
    unfold get_last_completed_index_for_coder
    rw [if_pos hb]
  · intro log coder_id j hne hobj hobj0 hcid hic hmem
    have hobj2 : ∀ x ∈ jsonLines (log ++ [LogLine.json j]), x.isObjB = true := by
      intro x hx
      rw [jsonLines, List.filterMap_append] at hx
      rcases List.mem_append.1 hx with h | h
      · exact hobj x h
      · simp at h
        subst h
        exact hobj0
    rw [hmain _ _ hne hobj2, hmain _ _ hne hobj]
    have happ : coderCompletedUrls (log ++ [LogLine.json j]) (pyStrip coder_id) =
        coderCompletedUrls log (pyStrip coder_id) ++ [recUrl j] := by
      unfold coderCompletedUrls jsonLines
      rw [List.filterMap_append, List.filterMap_append]
      simp [hcid, hic]
    rw [happ]
    exact dedup_length_append_mem _ _ hmem

/-- Witness for completed_count_for_coder_spec: duplicate completions of
one url count once. -/
theorem completed_count_for_coder_spec_witness :
    get_last_completed_index_for_coder
      [LogLine.json (Json.objOf [("coder_id", Json.str "c"), ("url", Json.str "A"),
        ("is_complete", Json.bool true)]),
       LogLine.json (Json.objOf [("coder_id", Json.str "c"), ("url", Json.str "A"),
        ("is_complete", Json.bool true)])] "c" = 1 ∧
    get_last_completed_index_for_coder [] " " = 0 := by
  constructor
  · rw [completed_count_for_coder_spec.1 _ "c" (by decide) (by decide)]
    rfl
  · exact completed_count_for_coder_spec.2.1 [] " " (by decide)

/-- Urls (when the url key is present) of the coder's truthy-complete
records — the claim's notion of "distinct URLs having a complete record". -/
def coderCompletedRealUrls (log : List LogLine) (ct : String) : List Json :=
  (jsonLines log).filterMap fun j =>
    match j.lookupKey "url" with
    | some u =>
      if (j.lookupKey "coder_id").getD Json.null = Json.str ct ∧
          ((j.lookupKey "is_complete").getD (Json.bool false)).truthy
      then some u else none
    | none => none

/-- C8 counterexample: a complete record with no url field at all makes
completedCountForCoder report 1 — None is added to the url set — although
no URL has a complete record for the coder, so the claim's count is 0. -/
theorem completed_count_missing_url_counterexample :
    get_last_completed_index_for_coder
      [LogLine.json (Json.objOf [("coder_id", Json.str "c"),
        ("is_complete", Json.bool true)])] "c" = 1 ∧
    (coderCompletedRealUrls [LogLine.json (Json.objOf [("coder_id", Json.str "c"),
        ("is_complete", Json.bool true)])] "c").dedup.length = 0 := ⟨rfl, by decide⟩

/-- Lowercasing a capitalized already-lowered string is the identity. -/
theorem pyLower_pyCapitalize_lowered (x : List Char) :
    pyLower (pyCapitalize (String.mk (pyLowerC x))) = String.mk (pyLowerC x) := by
  show String.mk (pyLowerC (pyCapitalizeC (pyLowerC x))) = String.mk (pyLowerC x)
  rw [pyLowerC_capitalize]

/-- The normalize_tags loop invariant: the emitted list stays
case-insensitively duplicate-free and every emitted tag is a base tag or a
capitalized candidate. -/
theorem normFold_spec (base : List String) (pieces : List (List Char)) :
    ∀ acc : List String,
      acc.Pairwise (fun a b => pyLower a ≠ pyLower b) →
      (∀ t ∈ acc, t ∈ base ∨ t = pyCapitalize (pyLower t)) →
      (pieces.foldl (normalizeStep base) acc).Pairwise (fun a b => pyLower a ≠ pyLower b) ∧
      (∀ t ∈ pieces.foldl (normalizeStep base) acc, t ∈ base ∨ t = pyCapitalize (pyLower t)) := by
  induction pieces with
  | nil => intro acc h1 h2; exact ⟨h1, h2⟩
  | cons p rest ih =>
    intro acc h1 h2
    rw [List.foldl_cons]
    by_cases hc : (String.mk (pyLowerC (pyStripC p)) ≠ "" ∧
        String.mk (pyLowerC (pyStripC p)) ∉ acc.map pyLower)
    · have hemit : ∃ e, normalizeStep base acc p = acc ++ [e] ∧
          pyLower e = String.mk (pyLowerC (pyStripC p)) ∧
          (e ∈ base ∨ e = pyCapitalize (pyLower e)) := by
        unfold normalizeStep
        rw [if_pos hc]
        cases hf : base.find? (fun bt => String.mk (pyLowerC (pyStripC p)) = pyLower bt) with
        | some bt =>
          refine ⟨bt, rfl, ?_, Or.inl (List.mem_of_find?_eq_some hf)⟩
          have := List.find?_some hf
          exact (of_decide_eq_true this).symm
        | none =>
          refine ⟨pyCapitalize (String.mk (pyLowerC (pyStripC p))), rfl, ?_, Or.inr ?_⟩
          · exact pyLower_pyCapitalize_lowered (pyStripC p)
          · rw [pyLower_pyCapitalize_lowered (pyStripC p)]
      obtain ⟨e, hee, helow, heshape⟩ := hemit
      rw [hee]
      apply ih
      · rw [List.pairwise_append]
        refine ⟨h1, List.pairwise_singleton _ _, ?_⟩
        intro a ha b hb
        have hb2 : b = e := by simpa using hb
        subst hb2
        rw [helow]
        intro heq
        exact hc.2 (heq ▸ List.mem_map_of_mem pyLower ha)
      · intro t ht
        rcases List.mem_append.1 ht with h | h
        · exact h2 t h
        · have ht2 : t = e := by simpa using h
          subst ht2
          exact heshape
    · have hskip : normalizeStep base acc p = acc := by
        unfold normalizeStep
        rw [if_neg hc]
      rw [hskip]
      exact ih acc h1 h2

/-- C9: the spec's example input normalizes to exactly its known tags in
order, and in general normalize_tags emits a case-insensitively
duplicate-free list in which every tag is either a member of knownTags
(canonical casing) or a capitalized candidate. -/
theorem normalize_tags_spec :
    normalize_tags "Love,  death ;War" ["love", "death", "war"] = ["love", "death", "war"] ∧
    (∀ (input : String) (base : List String),
      (normalize_tags input base).Pairwise (fun a b => pyLower a ≠ pyLower b)) ∧
    (∀ (input : String) (base : List String), ∀ t ∈ normalize_tags input base,
      t ∈ base ∨ t = pyCapitalize (pyLower t)) := by
  have hmain : ∀ (input : String) (base : List String),
      (normalize_tags input base).Pairwise (fun a b => pyLower a ≠ pyLower b) ∧
      (∀ t ∈ normalize_tags input base, t ∈ base ∨ t = pyCapitalize (pyLower t)) := by
    intro input base
    unfold normalize_tags
    by_cases h : input = ""
    · rw [if_pos h]
      exact ⟨List.Pairwise.nil, by intro t ht; simp at ht⟩
    · rw [if_neg h]
      exact normFold_spec base _ [] List.Pairwise.nil (by intro t ht; simp at ht)
  exact ⟨rfl, fun i b => (hmain i b).1, fun i b => (hmain i b).2⟩

/-- Witness for normalize_tags_spec's quantified parts at concrete
inputs. -/
theorem normalize_tags_spec_witness :
    (normalize_tags "a,A" []).Pairwise (fun a b => pyLower a ≠ pyLower b) ∧
    ("War" ∈ (["love"] : List String) ∨ "War" = pyCapitalize (pyLower "War")) := by
  constructor
  · exact normalize_tags_spec.2.1 "a,A" []
  · exact normalize_tags_spec.2.2 "war" ["love"] "War" (by decide)

/-- No line of the text ends in trailing whitespace: every piece of the
newline split is unchanged by rstrip. -/
def linesCleanC (l : List Char) : Prop := ∀ p ∈ splitNlC l, pyRstripC p = p

/-- The newline split is never empty. -/
theorem splitNlC_ne_nil (l : List Char) : splitNlC l ≠ [] := by
  cases l with
  | nil => simp [splitNlC]
  | cons c r =>
    by_cases h : c = '\n'
    · simp [splitNlC, h]
    · simp only [splitNlC, if_neg h]
      cases splitNlC r <;> simp

/-- Splitting around an explicit newline concatenates the splits. -/
theorem splitNlC_append_nl (xs ys : List Char) :
    splitNlC (xs ++ '\n' :: ys) = splitNlC xs ++ splitNlC ys := by
  induction xs with
  | nil => simp [splitNlC]
  | cons c r ih =>
    by_cases h : c = '\n'
    · subst h
      simp [splitNlC, List.append_eq, ih]
    · cases hs : splitNlC r with
      | nil => exact absurd hs (splitNlC_ne_nil r)
      | cons p ps =>
        simp only [List.cons_append, splitNlC, if_neg h, List.append_eq, ih, hs,
          List.cons_append]

/-- Pieces of the newline split contain no newline. -/
theorem no_nl_of_mem_splitNlC (l : List Char) : ∀ p ∈ splitNlC l, '\n' ∉ p := by
  induction l with
  | nil =>
    intro p hp
    simp [splitNlC] at hp
    simp [hp]
  | cons c r ih =>
    intro p hp
    by_cases h : c = '\n'
    · rw [show splitNlC (c :: r) = [] :: splitNlC r by simp [splitNlC, h]] at hp
      rcases List.mem_cons.1 hp with h2 | h2
      · simp [h2]
      · exact ih p h2
    · simp only [splitNlC, if_neg h] at hp
      cases hs : splitNlC r with
      | nil => exact absurd hs (splitNlC_ne_nil r)
      | cons q qs =>
        rw [hs] at hp
        rcases List.mem_cons.1 hp with h2 | h2
        · subst h2
          intro hmem
          rcases List.mem_cons.1 hmem with h3 | h3
          · exact h h3.symm
          · exact ih q (by rw [hs]; exact List.mem_cons_self q qs) h3
        · exact ih p (by rw [hs]; exact List.mem_cons_of_mem q h2)

/-- Joining with a newline when the tail is nonempty. -/
theorem joinSepC_cons (sep : List Char) (p : List Char) (qs : List (List Char))
    (h : qs ≠ []) : joinSepC sep (p :: qs) = p ++ sep ++ joinSepC sep qs := by
  cases qs with
  | nil => exact absurd rfl h
  | cons q qs2 => rfl

/-- A newline-free list splits to itself. -/
theorem splitNlC_no_nl (p : List Char) (h : '\n' ∉ p) : splitNlC p = [p] := by
  induction p with
  | nil => rfl
  | cons c r ih =>
    have hc : c ≠ '\n' := fun he => h (he ▸ List.mem_cons_self c r)
    simp only [splitNlC, if_neg hc]
    rw [ih (fun hm => h (List.mem_cons_of_mem c hm))]

/-- Splitting a newline-join of newline-free pieces recovers the pieces. -/
theorem splitNlC_joinSepC (ps : List (List Char)) (hnl : ∀ p ∈ ps, '\n' ∉ p)
    (hne : ps ≠ []) : splitNlC (joinSepC ['\n'] ps) = ps := by
  induction ps with
  | nil => exact absurd rfl hne
  | cons p qs ih =>
    cases qs with
    | nil =>
      show splitNlC p = [p]
      exact splitNlC_no_nl p (hnl p (List.mem_cons_self p []))
    | cons q qs2 =>
      rw [joinSepC_cons _ _ _ (by simp)]
      rw [List.append_assoc, List.singleton_append, splitNlC_append_nl]
      rw [splitNlC_no_nl p (hnl p (List.mem_cons_self p _))]
      rw [ih (fun x hx => hnl x (List.mem_cons_of_mem p hx)) (by simp)]
      rfl

/-- Joining the newline split recovers the list. -/
theorem joinSepC_splitNlC (l : List Char) : joinSepC ['\n'] (splitNlC l) = l := by
  induction l with
  | nil => rfl
  | cons c r ih =>
    by_cases h : c = '\n'
    · subst h
      rw [show splitNlC ('\n' :: r) = [] :: splitNlC r by simp [splitNlC]]
      rw [joinSepC_cons _ _ _ (splitNlC_ne_nil r), ih]
      rfl
    · simp only [splitNlC, if_neg h]
      cases hs : splitNlC r with
      | nil => exact absurd hs (splitNlC_ne_nil r)
      | cons q qs =>
        rw [hs] at ih
        cases qs with
        | nil =>
          show c :: q = c :: r
          rw [show joinSepC ['\n'] [q] = q from rfl] at ih
          rw [ih]
        | cons q2 qs2 =>
          rw [joinSepC_cons _ _ _ (by simp)] at ih ⊢
          rw [show (c :: q) ++ ['\n'] ++ joinSepC ['\n'] (q2 :: qs2) =
            c :: (q ++ ['\n'] ++ joinSepC ['\n'] (q2 :: qs2)) by simp, ih]

/-- The head surviving a dropWhile fails the predicate. -/
theorem head_dropWhile_false (q : Char → Bool) (l : List Char) (c : Char)
    (h : (l.dropWhile q).head? = some c) : q c = false := by
  induction l with
  | nil => simp [List.dropWhile] at h
  | cons d r ih =>
    by_cases hq : q d
    · rw [List.dropWhile_cons, if_pos hq] at h
      exact ih h
    · rw [List.dropWhile_cons, if_neg hq] at h
      simp at h
      subst h
      exact Bool.of_not_eq_true hq

/-- dropWhile of a list whose head fails the predicate is the list. -/
theorem dropWhile_of_head_false (q : Char → Bool) (l : List Char)
    (h : ∀ c, l.head? = some c → q c = false) : l.dropWhile q = l := by
  cases l with
  | nil => rfl
  | cons c r => rw [List.dropWhile_cons, if_neg (by simp [h c rfl])]

/-- The last character surviving rstrip is not whitespace. -/
theorem rstrip_getLast (l : List Char) (c : Char)
    (h : (pyRstripC l).getLast? = some c) : isPySpace c = false := by
  unfold pyRstripC at h
  rw [List.getLast?_reverse] at h
  exact head_dropWhile_false isPySpace l.reverse c h

/-- rstrip returns a prefix of its input. -/
theorem rstrip_isPrefix (l : List Char) : pyRstripC l <+: l := by
  have h : l.reverse.dropWhile isPySpace <:+ l.reverse := List.dropWhile_suffix isPySpace
  have h2 := h.reverse
  rwa [List.reverse_reverse] at h2

/-- rstrip is the identity exactly on lists with no trailing whitespace. -/
theorem rstrip_eq_self_iff (l : List Char) :
    pyRstripC l = l ↔ (∀ c, l.getLast? = some c → isPySpace c = false) := by
  constructor
  · intro h c hc
    exact rstrip_getLast l c (by rw [h]; exact hc)
  · intro h
    unfold pyRstripC
    rw [dropWhile_of_head_false isPySpace l.reverse (by
      intro c hc
      rw [List.head?_reverse] at hc
      exact h c hc)]
    exact List.reverse_reverse l

/-- rstrip is idempotent. -/
theorem pyRstripC_idem (l : List Char) : pyRstripC (pyRstripC l) = pyRstripC l := by
  rw [rstrip_eq_self_iff]
  exact rstrip_getLast l

/-- rstrip distributes over append: the left part survives when the right
part does not vanish. -/
theorem rstrip_append (a b : List Char) :
    pyRstripC (a ++ b) = if pyRstripC b = [] then pyRstripC a else a ++ pyRstripC b := by
  unfold pyRstripC
  rw [List.reverse_append, List.dropWhile_append]
  by_cases h : (b.reverse.dropWhile isPySpace).isEmpty
  · rw [if_pos h]
    rw [if_pos (by simpa [List.isEmpty_iff] using h)]
  · rw [if_neg h]
    rw [if_neg (by simpa [List.isEmpty_iff] using h)]
    rw [List.reverse_append, List.reverse_reverse]

/-- rstrip through a leading character. -/
theorem rstrip_cons (c : Char) (m : List Char) :
    pyRstripC (c :: m) =
      if pyRstripC m = [] then (if isPySpace c then [] else [c]) else c :: pyRstripC m := by
  have h := rstrip_append [c] m
  simp only [List.singleton_append] at h
  rw [h]
  by_cases hm : pyRstripC m = []
  · rw [if_pos hm, if_pos hm]
    by_cases hc : isPySpace c
    · rw [if_pos hc]
      simp [pyRstripC, List.dropWhile, hc]
    · rw [if_neg hc]
      simp [pyRstripC, List.dropWhile, hc]
  · rw [if_neg hm, if_neg hm]

/-- A nonempty suffix has the same last element. -/
theorem getLast_of_suffix (m n : List Char) (h : m <:+ n) (hne : m ≠ []) :
    m.getLast? = n.getLast? := by
  obtain ⟨t, rfl⟩ := h
  exact (List.getLast?_append_of_ne_nil t hne).symm

/-- strip is idempotent. -/
theorem pyStripC_idem (l : List Char) : pyStripC (pyStripC l) = pyStripC l := by
  unfold pyStripC pyLstripC
  by_cases hy : (pyRstripC l).dropWhile isPySpace = []
  · rw [hy]
    rfl
  · have hsuf : (pyRstripC l).dropWhile isPySpace <:+ pyRstripC l :=
      List.dropWhile_suffix isPySpace
    have hlast : ∀ c, ((pyRstripC l).dropWhile isPySpace).getLast? = some c →
        isPySpace c = false := by
      intro c hc
      apply rstrip_getLast l c
      rw [← getLast_of_suffix _ _ hsuf hy]
      exact hc
    have hr : pyRstripC ((pyRstripC l).dropWhile isPySpace) =
        (pyRstripC l).dropWhile isPySpace := (rstrip_eq_self_iff _).2 hlast
    rw [hr]
    apply dropWhile_of_head_false
    intro c hc
    exact head_dropWhile_false isPySpace (pyRstripC l) c hc

/-- The empty text has clean lines. -/
theorem linesClean_nil : linesCleanC [] := by
  intro p hp
  simp [splitNlC] at hp
  simp [hp, pyRstripC]

/-- Dropping the head preserves clean lines. -/
theorem linesClean_tail (c : Char) (r : List Char) (h : linesCleanC (c :: r)) :
    linesCleanC r := by
  intro p hp
  by_cases hc : c = '\n'
  · apply h
    rw [show splitNlC (c :: r) = [] :: splitNlC r by simp [splitNlC, hc]]
    exact List.mem_cons_of_mem [] hp
  · cases hs : splitNlC r with
    | nil => exact absurd hs (splitNlC_ne_nil r)
    | cons h0 t =>
      have hsplit : splitNlC (c :: r) = (c :: h0) :: t := by
        simp only [splitNlC, if_neg hc, hs]
      rw [hs] at hp
      rcases List.mem_cons.1 hp with h2 | h2
      · subst h2
        by_cases hnil : p = []
        · subst hnil
          rfl
        · have hch : pyRstripC (c :: p) = c :: p :=
            h (c :: p) (by rw [hsplit]; exact List.mem_cons_self _ _)
          rw [rstrip_eq_self_iff] at hch ⊢
          intro d hd
          apply hch d
          show ([c] ++ p).getLast? = some d
          rw [List.getLast?_append_of_ne_nil [c] hnil]
          exact hd
      · exact h p (by rw [hsplit]; exact List.mem_cons_of_mem (c :: h0) h2)

/-- lstrip preserves clean lines. -/
theorem linesClean_lstrip (l : List Char) : linesCleanC l → linesCleanC (pyLstripC l) := by
  unfold pyLstripC
  induction l with
  | nil => intro h; exact h
  | cons c r ih =>
    intro h
    by_cases hc : isPySpace c
    · rw [List.dropWhile_cons, if_pos hc]
      exact ih (linesClean_tail c r h)
    · rw [List.dropWhile_cons, if_neg (by simp [hc])]
      exact h

/-- rstrip of a newline-join of rstripped newline-free pieces is a
newline-join of a nonempty subfamily of the pieces (with empties). -/
theorem rstrip_joinSepC (ps : List (List Char)) (hne : ps ≠ [])
    (hprop : ∀ p ∈ ps, '\n' ∉ p ∧ pyRstripC p = p) :
    ∃ qs : List (List Char), qs ≠ [] ∧ (∀ q ∈ qs, q ∈ ps ∨ q = []) ∧
      pyRstripC (joinSepC ['\n'] ps) = joinSepC ['\n'] qs := by
  induction ps with
  | nil => exact absurd rfl hne
  | cons p qs0 ih =>
    cases qs0 with
    | nil =>
      refine ⟨[p], by simp, ?_, ?_⟩
      · intro q hq
        simp at hq
        simp [hq]
      · show pyRstripC (joinSepC ['\n'] [p]) = joinSepC ['\n'] [p]
        exact (hprop p (List.mem_cons_self p [])).2
    | cons q2 rest =>
      obtain ⟨qs, hqne, hqmem, hqeq⟩ :=
        ih (by simp) (fun x hx => hprop x (List.mem_cons_of_mem p hx))
      rw [joinSepC_cons _ _ _ (by simp), List.append_assoc, List.singleton_append,
        rstrip_append p ('\n' :: joinSepC ['\n'] (q2 :: rest))]
      by_cases hz : pyRstripC ('\n' :: joinSepC ['\n'] (q2 :: rest)) = []
      · rw [if_pos hz]
        refine ⟨[p], by simp, ?_, ?_⟩
        · intro q hq
          simp at hq
          simp [hq]
        · show pyRstripC p = joinSepC ['\n'] [p]
          exact (hprop p (List.mem_cons_self p _)).2
      · rw [if_neg hz]
        have hcons := rstrip_cons '\n' (joinSepC ['\n'] (q2 :: rest))
        by_cases hj : pyRstripC (joinSepC ['\n'] (q2 :: rest)) = []
        · exfalso
          apply hz
          rw [hcons, if_pos hj, if_pos (by simp [isPySpace])]
        · have h2 : pyRstripC ('\n' :: joinSepC ['\n'] (q2 :: rest)) =
              '\n' :: pyRstripC (joinSepC ['\n'] (q2 :: rest)) := by
            rw [hcons, if_neg hj]
          rw [h2, hqeq]
          refine ⟨p :: qs, by simp, ?_, ?_⟩
          · intro x hx
            rcases List.mem_cons.1 hx with h3 | h3
            · subst h3
              exact Or.inl (List.mem_cons_self _ _)
            · rcases hqmem x h3 with h4 | h4
              · exact Or.inl (List.mem_cons_of_mem p h4)
              · exact Or.inr h4
          · rw [joinSepC_cons _ _ _ hqne]
            simp

/-- rstrip preserves clean lines. -/
theorem linesClean_rstrip (l : List Char) (h : linesCleanC l) :
    linesCleanC (pyRstripC l) := by
  obtain ⟨qs, hqne, hqmem, hqeq⟩ := rstrip_joinSepC (splitNlC l) (splitNlC_ne_nil l)
    (fun p hp => ⟨no_nl_of_mem_splitNlC l p hp, h p hp⟩)
  rw [joinSepC_splitNlC l] at hqeq
  rw [hqeq]
  intro p hp
  rw [splitNlC_joinSepC qs (fun q hq => by
      rcases hqmem q hq with h2 | h2
      · exact no_nl_of_mem_splitNlC l q h2
      · subst h2; simp) hqne] at hp
  rcases hqmem p hp with h2 | h2
  · exact h p h2
  · subst h2
    rfl

/-- A newline-join of rstripped newline-free pieces has clean lines. -/
theorem linesClean_joinNl (ps : List (List Char)) (hne : ps ≠ [])
    (hnl : ∀ p ∈ ps, '\n' ∉ p) (hrs : ∀ p ∈ ps, pyRstripC p = p) :
    linesCleanC (joinSepC ['\n'] ps) := by
  intro p hp
  rw [splitNlC_joinSepC ps hnl hne] at hp
  exact hrs p hp

/-- Every stanza built by the per-paragraph cleanup has clean lines. -/
theorem stanza_linesClean (u : List Char) :
    linesCleanC (pyStripC (joinSepC ['\n'] ((splitNlC u).map pyRstripC))) := by
  have hbase : linesCleanC (joinSepC ['\n'] ((splitNlC u).map pyRstripC)) := by
    apply linesClean_joinNl
    · intro he
      exact splitNlC_ne_nil u (List.map_eq_nil_iff.1 he)
    · intro p hp
      obtain ⟨x, hx, rfl⟩ := List.mem_map.1 hp
      intro hmem
      exact no_nl_of_mem_splitNlC u x hx ((rstrip_isPrefix x).subset hmem)
    · intro p hp
      obtain ⟨x, hx, rfl⟩ := List.mem_map.1 hp
      exact pyRstripC_idem x
  unfold pyStripC
  exact linesClean_lstrip _ (linesClean_rstrip _ hbase)

/-- A double-newline join of clean-line blocks has clean lines. -/
theorem linesClean_joinDoubleNl (ss : List (List Char))
    (h : ∀ s ∈ ss, linesCleanC s) : linesCleanC (joinSepC ['\n', '\n'] ss) := by
  induction ss with
  | nil => exact linesClean_nil
  | cons s rest ih =>
    cases rest with
    | nil => exact h s (List.mem_cons_self s [])
    | cons t rest2 =>
      rw [joinSepC_cons _ _ _ (by simp)]
      intro p hp
      rw [List.append_assoc] at hp
      rw [show (['\n', '\n'] : List Char) ++ joinSepC ['\n', '\n'] (t :: rest2) =
        '\n' :: ('\n' :: joinSepC ['\n', '\n'] (t :: rest2)) from rfl] at hp
      rw [splitNlC_append_nl] at hp
      rcases List.mem_append.1 hp with h2 | h2
      · exact h s (List.mem_cons_self _ _) p h2
      · rw [show splitNlC ('\n' :: joinSepC ['\n', '\n'] (t :: rest2)) =
          [] :: splitNlC (joinSepC ['\n', '\n'] (t :: rest2)) by simp [splitNlC]] at h2
        rcases List.mem_cons.1 h2 with h3 | h3
        · subst h3
          rfl
        · exact ih (fun x hx => h x (List.mem_cons_of_mem s hx)) p h3

/-- Clean lines is decidable. -/
instance linesCleanC_decidable (l : List Char) : Decidable (linesCleanC l) :=
  List.decidableBAll (fun p => pyRstripC p = p) (splitNlC l)

/-- C6 amended: on the body-extraction path every line of the normalized
text is free of trailing whitespace, the surviving stanzas are nonempty
and stripped, and the text is exactly their double-newline join (a stanza
may still contain internal blank lines).  The JSON-LD description fallback
gives no such per-line guarantee — the counterexample exhibits a fallback
text with a trailing space inside a line. -/
theorem extract_text_clean_spec :
    (∀ b : Option BodyElem, linesCleanC (extract_poem_text_from_body b).data) ∧
    (∀ b : BodyElem, ∀ s ∈ bodyStanzas b, s ≠ "" ∧ pyStrip s = s) ∧
    (∀ b : BodyElem, extract_poem_text_from_body (some b) =
      String.mk (joinSepC ['\n', '\n'] ((bodyStanzas b).map String.data))) := by
  have hstanza : ∀ (b : BodyElem) (s : String), s ∈ bodyStanzas b →
      ∃ u : List Char, s = String.mk (pyStripC (joinSepC ['\n']
        ((splitNlC u).map pyRstripC))) := by
    intro b s hs
    unfold bodyStanzas at hs
    obtain ⟨hmem, _⟩ := List.mem_filter.1 hs
    obtain ⟨p, _, rfl⟩ := List.mem_map.1 hmem
    exact ⟨(clean_text p).data, rfl⟩
  refine ⟨?_, ?_, ?_⟩
  · intro b
    cases b with
    | none => exact linesClean_nil
    | some b =>
      show linesCleanC (joinSepC ['\n', '\n'] ((bodyStanzas b).map String.data))
      apply linesClean_joinDoubleNl
      intro x hx
      obtain ⟨s, hs, rfl⟩ := List.mem_map.1 hx
      obtain ⟨u, rfl⟩ := hstanza b s hs
      exact stanza_linesClean u
  · intro b s hs
    have hne : s ≠ "" := by
      unfold bodyStanzas at hs
      obtain ⟨_, hcond⟩ := List.mem_filter.1 hs
      exact of_decide_eq_true hcond
    obtain ⟨u, rfl⟩ := hstanza b s hs
    refine ⟨hne, ?_⟩
    show String.mk (pyStripC (pyStripC (joinSepC ['\n'] ((splitNlC u).map pyRstripC)))) = _
    rw [pyStripC_idem]
  · intro b
    rfl

/-- Witness for extract_text_clean_spec at a concrete body element. -/
theorem extract_text_clean_spec_witness :
    linesCleanC (extract_poem_text_from_body
      (some ⟨"<div>", ["a  \nb", " "], "w"⟩)).data ∧
    (("a\nb" : String) ≠ "" ∧ pyStrip "a\nb" = "a\nb") := by
  constructor
  · exact extract_text_clean_spec.1 (some ⟨"<div>", ["a  \nb", " "], "w"⟩)
  · exact extract_text_clean_spec.2.1 ⟨"<div>", ["a  \nb", " "], "w"⟩ "a\nb" (by decide)

/-- A page with no article whose JSON-LD description carries an escaped
newline preceded by a space. -/
def docDescFallback : Doc :=
  ⟨none, none, [some (Json.objOf [("@graph", Json.arrOf
    [Json.objOf [("@type", Json.str "Article"), ("description", Json.str "a \\nb")]])])]⟩

/-- C6 counterexample: through the JSON-LD description fallback the
normalized text keeps a trailing space before the newline ("a \nb"), so
the claim that no line of normalizedText ends in whitespace — including on
the fallback path — is false. -/
theorem parse_fallback_trailing_ws_counterexample :
    parse_poem docDescFallback "u" =
      Except.ok ({ url := "u" }, ⟨"", "a \nb"⟩) ∧
    ¬ linesCleanC ("a \nb").data := by
  constructor
  · rfl
  · decide
